import Mathlib

/-!
# Dependency tracker: a shallow embedding of `dependency.cpp`

Strings (`std::string`) are lists of characters.  A file stream is the pair of
the whole file content and the part not yet read.  The file system, the
standard output and the external `system` call are explicit state.
-/

namespace DependencyTracker

/-- A `std::string`, as its sequence of characters. -/
abbrev Str := List Char

/-- The global switches of `struct GlobalParameters`. -/
structure GlobalParameters where
  ignoreCurrentPath : Bool
  ignoreDependencyFileHeader : Bool
  ignorePull : Bool
  cleanRepo : Bool
  verboseLog : Bool
deriving DecidableEq, Repr

/-- The record of `struct Dependency`. -/
structure Dependency where
  url : Str
  branch : Str
deriving DecidableEq, Repr

/-- An input file stream: whether it is open, the content of the file and the
characters not yet read. -/
structure ifstream where
  is_open : Bool
  content : Str
  rest : Str
deriving DecidableEq, Repr

/-- The four characters that start a comment in `readLine`. -/
def isMarker (c : Char) : Bool :=
  c == '<' || c == '>' || c == '"' || c == '|'

/-- The `do ... while(1)` loop of `readLine` over the unread characters, with
the local variables `comment` and `data`; returns `data` and the characters
left unread.  `readsome` yielding nothing is the end of the input. -/
def readLineLoop : Str → Bool → Str → Str × Str
  | [], _, data => (data, [])
  | c :: cs, comment, data =>
    if c = '\r' then readLineLoop cs comment data
    else if c = '\n' then
      if data.length = 0 then readLineLoop cs comment data
      else (data, cs)
    else
      let comment1 := if isMarker c then true else comment
      if comment1 then readLineLoop cs comment1 data
      else readLineLoop cs comment1 (data ++ [c])

/-- The function `readLine`: the decoded line and the stream after the read. -/
def readLine (file : ifstream) : Str × ifstream :=
  if !file.is_open then ([], file)
  else
    let r := readLineLoop file.rest false []
    (r.1, { file with rest := r.2 })

/-- The sentinel of a declaration file. -/
def headerSentinel : Str := "#DEPENDENCIES".toList

/-- The warning printed by `validateDependency` on an override. -/
def overrideWarning : Str :=
  "Warning: Including a dependency list which might be invalid\n".toList

/-- The function `validateDependency`: the verdict, the stream after the read
and the standard output. -/
def validateDependency (g : GlobalParameters) (file : ifstream) (out : List Str) :
    Bool × ifstream × List Str :=
  if !file.is_open then (false, file, out)
  else
    let file1 := { file with rest := file.content }
    let r := readLine file1
    let header := r.1
    let valid := decide (header = headerSentinel)
    if !valid && g.ignoreDependencyFileHeader then (true, r.2, out ++ [overrideWarning])
    else (valid, r.2, out)

/-- The allow-list of `getLibraryName`. -/
def allowedChars : Str :=
  "abcdefghijklmnopqrstuvwxyzABCDEFGHIJKLMNOPQRSTUVWXYZ0123456789.-_~!$&'()*+,;=:@".toList

/-- The position of the last occurrence of a character
(`std::string::find_last_of`), `none` for `npos`. -/
def find_last_of : Str → Char → Option Nat
  | [], _ => none
  | x :: xs, c =>
    match find_last_of xs c with
    | some i => some (i + 1)
    | none => if x = c then some 0 else none

/-- The step `url = url.substr(0, url.find_last_of(c))` guarded by
`std::find(..., c) != url.end()`. -/
def stripFrom (url : Str) (c : Char) : Str :=
  if c ∈ url then
    match find_last_of url c with
    | some i => url.take i
    | none => url
  else url

/-- The step `url.substr(url.find_last_of('/') + 1)`, where `npos + 1` is 0. -/
def afterLastSlash (url : Str) : Str :=
  match find_last_of url '/' with
  | some i => url.drop (i + 1)
  | none => url

/-- The function `getLibraryName`.  The result is `none` where the code calls
`url.back()` on an empty string, which is undefined behaviour. -/
def getLibraryName (dep : Dependency) : Option Str :=
  let url := dep.url
  let url := stripFrom url '#'
  let url := stripFrom url '?'
  match url.getLast? with
  | none => none
  | some last =>
    let url := if last ∈ allowedChars then url else url.dropLast
    let url := afterLastSlash url
    some (url ++ "-".toList ++ dep.branch)

/-- The `for(char c : line)` loop of `readDependency`, with the local `step`
and the two fields being filled. -/
def scanLine : Str → Nat → Str → Str → Str × Str
  | [], _, url, branch => (url, branch)
  | c :: cs, step, url, branch =>
    if c = ' ' ∨ c = '\t' then
      scanLine cs (if url.length ≠ 0 then 1 else step) url branch
    else
      match step with
      | 0 => scanLine cs step (url ++ [c]) branch
      | 1 => scanLine cs step url (branch ++ [c])
      | _ => scanLine cs step url branch

/-- The function `readDependency`: the verdict, the record and the stream. -/
def readDependency (dep : Dependency) (file : ifstream) : Bool × Dependency × ifstream :=
  if !file.is_open then (false, dep, file)
  else
    let r := readLine file
    let line := r.1
    if line.isEmpty then (false, dep, r.2)
    else
      let s := scanLine line 0 [] []
      (true, { url := s.1, branch := s.2 }, r.2)

/-- The loop `while(readDependency(curDep, file)) dependencies.push_back(curDep)`
of `getDependencies`, bounded by a number of iterations. -/
def readAll : Nat → Dependency → ifstream → List Dependency → List Dependency
  | 0, _, _, dependencies => dependencies
  | fuel + 1, curDep, file, dependencies =>
    let r := readDependency curDep file
    if r.1 then readAll fuel r.2.1 r.2.2 (dependencies ++ [r.2.1])
    else dependencies

/-- The message of `getDependencies` for a rejected file. -/
def invalidFileMessage : Str := "\tinvalid dependency file\n".toList

/-- The part of the file system the program looks at: which paths are
directories, the content of the regular files, what a directory iterator
yields, canonical paths and the current working directory. -/
structure FileSystem where
  is_directory : Str → Bool
  read : Str → Option Str
  entries : Str → List Str
  canonical : Str → Str
  current_path : Str

/-- The test `fs::is_regular_file`. -/
def is_regular_file (fs : FileSystem) (p : Str) : Bool := (fs.read p).isSome

/-- The call `fs::create_directories(p)`: afterwards `p` is a directory.  The
parents it creates as well are never looked at by the program. -/
def create_directories (fs : FileSystem) (p : Str) : FileSystem :=
  { fs with is_directory := fun q => decide (q = p) || fs.is_directory q }

/-- The constructor `std::ifstream file(path, ...)`. -/
def openFile (fs : FileSystem) (path : Str) : ifstream :=
  match fs.read path with
  | some c => { is_open := true, content := c, rest := c }
  | none => { is_open := false, content := [], rest := [] }

/-- The body of `getDependencies` once the stream is constructed.  Each
successful `readDependency` consumes a character, so one more iteration than
there are unread characters ends the loop. -/
def getDependenciesFrom (g : GlobalParameters) (file : ifstream) (out : List Str) :
    List Dependency × List Str :=
  let v := validateDependency g file out
  if !v.1 then ([], v.2.2 ++ [invalidFileMessage])
  else (readAll (v.2.1.rest.length + 1) { url := [], branch := [] } v.2.1 [], v.2.2)

/-- The function `getDependencies`. -/
def getDependencies (g : GlobalParameters) (fs : FileSystem) (path : Str) (out : List Str) :
    List Dependency × List Str :=
  getDependenciesFrom g (openFile fs path) out

/-- The function `mergeDependencies`: the value of `dest` after the call. -/
def mergeDependencies (dest : List Dependency) (src : List Dependency) : List Dependency :=
  src.foldl
    (fun dest dep =>
      if dest.any (fun d => decide (d.branch = dep.branch ∧ d.url = dep.url)) then dest
      else dest ++ [dep])
    dest

/-- The state the program runs in: the file system, what was written to the
standard output, and the command lines handed to `system`, oldest first. -/
structure World where
  fs : FileSystem
  out : List Str
  calls : List Str

/-- The C library call `system`: the external command reads and changes the
file system and returns a status. -/
abbrev Shell := Str → FileSystem → Int × FileSystem

/-- Writes one chunk to the standard output. -/
def print (w : World) (s : Str) : World := { w with out := w.out ++ [s] }

/-- Writes one chunk to the standard output when `verboseLog` is set. -/
def printVerbose (g : GlobalParameters) (w : World) (s : Str) : World :=
  if g.verboseLog then print w s else w

/-- The command line `execute` builds from the command and its arguments. -/
def commandLine (command : Str) (cargs : List Str) : Str :=
  cargs.foldl (fun cli arg => cli ++ (" ".toList ++ arg)) command

/-- The function `execute`. -/
def execute (g : GlobalParameters) (sh : Shell) (command : Str) (cargs : List Str)
    (w : World) : Int × World :=
  let cli := commandLine command cargs
  let w1 := printVerbose g w (cli ++ "\n".toList)
  let r := sh cli w1.fs
  (r.1, { w1 with fs := r.2, calls := w1.calls ++ [cli] })

/-- The function `validateGit`. -/
def validateGit (g : GlobalParameters) (sh : Shell) (w : World) : Bool × World :=
  let w1 := printVerbose g w "Determining git version...\n".toList
  let r := execute g sh "git".toList ["--version".toList] w1
  if r.1 ≠ 0 then
    (false, print r.2
      "System could not find git - Please install git and configure your system PATH to continue\n".toList)
  else (true, r.2)

/-- The body of the `for(fs::path p : wdir)` loop of `findDependencyFiles`. -/
def findStep (g : GlobalParameters) (fs : FileSystem) (filename : Str)
    (acc : List Str × List Str) (p : Str) : List Str × List Str :=
  if !fs.is_directory p then acc
  else
    let f := p ++ "/".toList ++ filename
    if !is_regular_file fs f then acc
    else
      let out1 := if g.verboseLog then
        acc.2 ++ ["Found dependency file ".toList ++ f ++ "\n".toList] else acc.2
      let v := validateDependency g (openFile fs f) out1
      if v.1 then (acc.1 ++ [f], v.2.2) else (acc.1, v.2.2)

/-- The step `if(!fs::is_directory(p)) fs::create_directories(p)`. -/
def ensureDirectory (fs : FileSystem) (p : Str) : FileSystem :=
  if !fs.is_directory p then create_directories fs p else fs

/-- The function `findDependencyFiles`; no directory iteration throws. -/
def findDependencyFiles (g : GlobalParameters) (libdir filename : Str) (w : World) :
    List Str × World :=
  if is_regular_file w.fs libdir then
    ([], printVerbose g w ("Library path is not valid: ".toList ++ libdir ++ "\n".toList))
  else
    let fs1 := ensureDirectory w.fs libdir
    let r := (fs1.entries libdir).foldl (findStep g fs1 filename) ([], w.out)
    (r.1, { w with fs := fs1, out := r.2 })

/-- The loop `for(std::string p : list) mergeDependencies(dpList, getDependencies(p))`
of `populateDependencyList`. -/
def mergeFiles (g : GlobalParameters) (fs : FileSystem) :
    List Str → List Dependency → List Str → List Dependency × List Str
  | [], dpList, out => (dpList, out)
  | p :: ps, dpList, out =>
    let r := getDependencies g fs p out
    mergeFiles g fs ps (mergeDependencies dpList r.1) r.2

/-- The message of `populateDependencyList` for an empty set. -/
def noDependenciesMessage : Str := "No dependencies found!\n".toList

/-- The block of `populateDependencyList` guarded by `!ignoreCurrentPath`: the
declaration file of the current working directory joins the list when valid. -/
def addCurrentPath (g : GlobalParameters) (depfname : Str) (list : List Str) (w : World) :
    List Str × World :=
  if !g.ignoreCurrentPath then
    let w3 := printVerbose g w "Searching for current path dependencies...\n".toList
    let localpath := w3.fs.current_path ++ "/".toList ++ depfname
    let v := validateDependency g (openFile w3.fs localpath) w3.out
    (if v.1 then list ++ [localpath] else list, { w3 with out := v.2.2 })
  else (list, w)

/-- The function `populateDependencyList`: the verdict, `dpList` after the call
and the state. -/
def populateDependencyList (g : GlobalParameters) (dpList : List Dependency)
    (libdir depfname : Str) (w : World) : Bool × List Dependency × World :=
  if is_regular_file w.fs libdir then
    (false, dpList,
      printVerbose g w ("Library path is not valid: ".toList ++ libdir ++ "\n".toList))
  else
    let w1 := { w with fs := ensureDirectory w.fs libdir }
    let dir := w1.fs.canonical libdir
    let found := findDependencyFiles g dir depfname w1
    let local1 := addCurrentPath g depfname found.1 found.2
    let merged := mergeFiles g local1.2.fs local1.1 dpList local1.2.out
    let w4 := { local1.2 with out := merged.2 }
    if merged.1.length ≠ 0 then (true, merged.1, w4)
    else (false, merged.1, print w4 noDependenciesMessage)

/-- The call `make_preferred()`, which on a POSIX system leaves the path as it is. -/
def make_preferred (p : Str) : Str := p

/-- Why a run of the model gives no result. -/
inductive Fault where
  | undefinedBehaviour
  | outOfFuel
deriving DecidableEq, Repr

/-- The argument list of the reset request. -/
def resetArgs (libpath : Str) : List Str :=
  ["-C".toList, libpath, "reset".toList, "--hard".toList, "HEAD".toList]

/-- The argument list of the pull request. -/
def pullArgs (libpath : Str) : List Str := ["-C".toList, libpath, "pull".toList]

/-- The argument list of the clone request. -/
def cloneArgs (dep : Dependency) (libpath : Str) : List Str :=
  ["clone".toList, "-b".toList, dep.branch, "--recurse-submodules".toList, dep.url, libpath]

/-- The loop `for(Dependency& dep : list)` of `updateDependencies`, with the
local `newLibrary`. -/
def syncRecords (g : GlobalParameters) (sh : Shell) (recursing : Bool) (dir : Str) :
    List Dependency → World → Bool → Except Fault (World × Bool)
  | [], w, newLibrary => .ok (w, newLibrary)
  | dep :: deps, w, newLibrary =>
    match getLibraryName dep with
    | none => .error .undefinedBehaviour
    | some libname =>
      let libpath := make_preferred (dir ++ "/".toList ++ libname)
      if w.fs.is_directory libpath then
        if !g.ignorePull && !recursing then
          let w1 :=
            if g.cleanRepo then
              (execute g sh "git".toList (resetArgs libpath)
                (printVerbose g w
                  ("Cleaning repository ".toList ++ libname ++ "...\n".toList))).2
            else w
          let w2 := printVerbose g w1
            ("Fetch/Pull existing library: ".toList ++ libname ++ " in ".toList ++ dir
              ++ "\n".toList)
          let w3 := (execute g sh "git".toList (pullArgs libpath) w2).2
          syncRecords g sh recursing dir deps w3 newLibrary
        else syncRecords g sh recursing dir deps w newLibrary
      else
        let w1 := printVerbose g w
          ("Cloning dependency library: ".toList ++ libname ++ " to ".toList ++ libpath
            ++ "\n".toList)
        let w2 := (execute g sh "git".toList (cloneArgs dep libpath) w1).2
        syncRecords g sh recursing dir deps w2 true

/-- One execution of the body of the `do ... while(newLibrary)` loop of
`updateDependencies`: the state after it and the final `newLibrary`. -/
def updatePass (g : GlobalParameters) (sh : Shell) (libdir depfname : Str)
    (recursing : Bool) (w : World) : Except Fault (World × Bool) :=
  let p := populateDependencyList g [] libdir depfname w
  if p.1 then
    let dir := p.2.2.fs.canonical libdir
    syncRecords g sh recursing dir p.2.1 p.2.2 false
  else .ok (p.2.2, false)

/-- The `do ... while(newLibrary)` loop of `updateDependencies`, bounded by a
number of executions of its body; `n` counts the executions done so far. -/
def updateLoop (g : GlobalParameters) (sh : Shell) (libdir depfname : Str) :
    Nat → Bool → World → Nat → Except Fault (World × Nat)
  | 0, _, _, _ => .error .outOfFuel
  | fuel + 1, recursing, w, n =>
    match updatePass g sh libdir depfname recursing w with
    | .error e => .error e
    | .ok r =>
      if r.2 then updateLoop g sh libdir depfname fuel true r.1 (n + 1)
      else .ok (r.1, n + 1)

/-- The function `updateDependencies` with `params[0] = libdir` and
`params[1] = depfname`: the returned value, the final state and the number of
executions of the loop body. -/
def updateDependencies (g : GlobalParameters) (sh : Shell) (libdir depfname : Str)
    (fuel : Nat) (w : World) : Except Fault (Bool × World × Nat) :=
  let v := validateGit g sh w
  if !v.1 then .ok (false, v.2, 0)
  else
    match updateLoop g sh libdir depfname fuel false v.2 0 with
    | .error e => .error e
    | .ok r => .ok (false, r.1, r.2)

/-- The dedup rule in the words of the specification: of the records in
discovery order, those that did not occur at an earlier position. -/
def firstOccurrences (l : List Dependency) : List Dependency :=
  (List.range l.length).filterMap
    (fun i => match l[i]? with
      | some r => if r ∈ l.take i then none else some r
      | none => none)

/-- The merge step of `mergeDependencies` for one record of `src`. -/
def mergeStep (dest : List Dependency) (dep : Dependency) : List Dependency :=
  if dest.any (fun d => decide (d.branch = dep.branch ∧ d.url = dep.url)) then dest
  else dest ++ [dep]

/-- A character sequence with every carriage return removed. -/
def stripCR (s : Str) : Str := s.filter (fun c => c != '\r')

/-- The command line of the version check of `validateGit`. -/
def versionCommand : Str := commandLine "git".toList ["--version".toList]

/-- The command line of the reset request for a library path. -/
def resetCommand (libpath : Str) : Str := commandLine "git".toList (resetArgs libpath)

/-- The command line of the pull request for a library path. -/
def pullCommand (libpath : Str) : Str := commandLine "git".toList (pullArgs libpath)

/-- The command line of the clone request for a record and its library path. -/
def cloneCommand (dep : Dependency) (libpath : Str) : Str :=
  commandLine "git".toList (cloneArgs dep libpath)

/-- The library path `updateDependencies` computes for a library name. -/
def libraryPath (dir libname : Str) : Str := make_preferred (dir ++ "/".toList ++ libname)

/-- The dependency set `populateDependencyList` resolves on a file system,
starting from the empty set. -/
def recordsOf (g : GlobalParameters) (libdir depfname : Str) (fs : FileSystem) :
    List Dependency :=
  (populateDependencyList g [] libdir depfname { fs := fs, out := [], calls := [] }).2.1

/-- The file system `populateDependencyList` leaves. -/
def preparedFs (g : GlobalParameters) (libdir depfname : Str) (fs : FileSystem) : FileSystem :=
  (populateDependencyList g [] libdir depfname { fs := fs, out := [], calls := [] }).2.2.fs

/-- The command lines a pass hands to `system` for a record whose library path
is a directory: a pull, after a reset under the clean policy, in initial mode
when pulls are not ignored, and nothing otherwise. -/
def presentRequests (g : GlobalParameters) (recursing : Bool) (libpath : Str) : List Str :=
  if !g.ignorePull && !recursing then
    (if g.cleanRepo then [resetCommand libpath] else []) ++ [pullCommand libpath]
  else []

/-- The file system after the requests of `presentRequests`. -/
def afterPresent (g : GlobalParameters) (sh : Shell) (recursing : Bool) (libpath : Str)
    (fs : FileSystem) : FileSystem :=
  if !g.ignorePull && !recursing then
    (sh (pullCommand libpath)
      (if g.cleanRepo then (sh (resetCommand libpath) fs).2 else fs)).2
  else fs

/-- A file system given by its directories, its regular files and the listing
of the library root `/lib`; paths are canonical and the working directory is
`/proj`. -/
def sampleFs (dirs : List Str) (files : List (Str × Str)) (listing : List Str) : FileSystem :=
  { is_directory := fun p => decide (p ∈ dirs)
    read := fun p => files.lookup p
    entries := fun d => if d = "/lib".toList then listing else []
    canonical := fun p => p
    current_path := "/proj".toList }

/-- The switches as the program starts: all off. -/
def defaultFlags : GlobalParameters :=
  { ignoreCurrentPath := false, ignoreDependencyFileHeader := false, ignorePull := false,
    cleanRepo := false, verboseLog := false }

/-- A synchronizer that reports success and changes nothing. -/
def idleShell : Shell := fun _ fs => (0, fs)

/-- A state with nothing printed and no command issued yet. -/
def freshWorld (fs : FileSystem) : World := { fs := fs, out := [], calls := [] }

/-- A project without declaration file and with an empty library root. -/
def emptyFs : FileSystem := sampleFs ["/lib".toList] [] []

/-- A file system in which the library root `/lib` is a regular file. -/
def fileRootFs : FileSystem := sampleFs [] [("/lib".toList, "text".toList)] []

/-- What one execution of the loop body does for a record: the command lines
it hands to `system`, and whether it sets `newLibrary`.  It is one clone
request, with `newLibrary` set, or the requests for a library in place. -/
def requestsFor (g : GlobalParameters) (recursing : Bool) (dir : Str) (dep : Dependency)
    (group : List Str × Bool) : Prop :=
  ∃ n, getLibraryName dep = some n
    ∧ (group = ([cloneCommand dep (libraryPath dir n)], true)
      ∨ group = (presentRequests g recursing (libraryPath dir n), false))

/-- A project whose declaration file names the record (`https://x/y`, `main`),
with an empty library root. -/
def absentFs : FileSystem :=
  sampleFs ["/lib".toList]
    [("/proj/dependency.txt".toList, "#DEPENDENCIES\nhttps://x/y main\n".toList)] []

/-- A synchronizer that answers the version check and fails every other
request, changing nothing. -/
def failingShell : Shell := fun cli fs => (if cli = versionCommand then 0 else 1, fs)

/-- The record the sample project declares. -/
def recordA : Dependency := { url := "https://x/a".toList, branch := "main".toList }

/-- The record the library of `recordA` declares. -/
def recordB : Dependency := { url := "https://x/b".toList, branch := "main".toList }

/-- The declaration file of the sample project. -/
def projectFile : Str × Str :=
  ("/proj/dependency.txt".toList, "#DEPENDENCIES\nhttps://x/a main\n".toList)

/-- The declaration file inside the library of `recordA`. -/
def libraryFile : Str × Str :=
  ("/lib/a-main/dependency.txt".toList, "#DEPENDENCIES\nhttps://x/b main\n".toList)

/-- The sample project before any clone. -/
def stage0 : FileSystem := sampleFs ["/lib".toList] [projectFile] []

/-- The sample project with the library of `recordA` cloned. -/
def stageA : FileSystem :=
  sampleFs ["/lib".toList, "/lib/a-main".toList] [projectFile, libraryFile]
    ["/lib/a-main".toList]

/-- The sample project with the library of `recordB` cloned. -/
def stageB : FileSystem :=
  sampleFs ["/lib".toList, "/lib/b-main".toList] [projectFile] ["/lib/b-main".toList]

/-- The sample project with both libraries cloned. -/
def stageAB : FileSystem :=
  sampleFs ["/lib".toList, "/lib/a-main".toList, "/lib/b-main".toList]
    [projectFile, libraryFile] ["/lib/a-main".toList, "/lib/b-main".toList]

/-- A synchronizer for the sample project: the two clone requests add their
library, every other request succeeds and changes nothing. -/
def nestedShell : Shell := fun cli fs =>
  if cli = cloneCommand recordA "/lib/a-main".toList then
    (0, if fs.is_directory "/lib/b-main".toList then stageAB else stageA)
  else if cli = cloneCommand recordB "/lib/b-main".toList then
    (0, if fs.is_directory "/lib/a-main".toList then stageAB else stageB)
  else (0, fs)

/-- The two characters `readDependency` treats as separators. -/
def isBlank (c : Char) : Bool := c == ' ' || c == '\t'

/-- The tokens of a line: its maximal runs of characters other than space and
tab, in order. -/
def tokens (line : Str) : List Str :=
  (line.splitOnP isBlank).filter (fun t => !t.isEmpty)

/-- Two inputs that read alike: they are equal, or the first has one line feed
more, at its start or directly after another line feed. -/
def sameUpToBlankLine (s s2 : Str) : Prop :=
  s = s2 ∨ s = '\n' :: s2
    ∨ ∃ pre post, s = pre ++ '\n' :: '\n' :: post ∧ s2 = pre ++ '\n' :: post

/-- A record of the two-record project. -/
def twinA : Dependency := { url := "https://x/y".toList, branch := "main".toList }

/-- A second record, from another host, with the same last segment and ref. -/
def twinB : Dependency := { url := "https://z/y".toList, branch := "main".toList }

/-- A project whose declaration file names `twinA` and `twinB`, with an empty
library root. -/
def twinFs : FileSystem :=
  sampleFs ["/lib".toList]
    [("/proj/dependency.txt".toList,
      "#DEPENDENCIES\nhttps://x/y main\nhttps://z/y main\n".toList)] []

/-- The two-record project with the directory `/lib/y-main` in place. -/
def twinClonedFs : FileSystem :=
  sampleFs ["/lib".toList, "/lib/y-main".toList]
    [("/proj/dependency.txt".toList,
      "#DEPENDENCIES\nhttps://x/y main\nhttps://z/y main\n".toList)]
    ["/lib/y-main".toList]

/-- A synchronizer for the two-record project: a clone request of either
record into `/lib/y-main` leaves that directory, every other request succeeds
and changes nothing. -/
def twinShell : Shell := fun cli fs =>
  if cli = cloneCommand twinA "/lib/y-main".toList
      ∨ cli = cloneCommand twinB "/lib/y-main".toList then (0, twinClonedFs)
  else (0, fs)

/-! ## Theorems -/

theorem validateDependency_out (g : GlobalParameters) (file : ifstream) (out out2 : List Str) :
    (validateDependency g file out).1 = (validateDependency g file out2).1
    ∧ (validateDependency g file out).2.1 = (validateDependency g file out2).2.1 := by
  unfold validateDependency
  split
  · exact ⟨rfl, rfl⟩
  · dsimp only
    split <;> exact ⟨rfl, rfl⟩

theorem getDependencies_out (g : GlobalParameters) (fs : FileSystem) (path : Str)
    (out out2 : List Str) :
    (getDependencies g fs path out).1 = (getDependencies g fs path out2).1 := by
  unfold getDependencies getDependenciesFrom
  have h := validateDependency_out g (openFile fs path) out out2
  dsimp only
  rw [h.1, h.2]
  split <;> rfl

theorem mergeFiles_eq_foldl (g : GlobalParameters) (fs : FileSystem) (ps : List Str) :
    ∀ (dpList : List Dependency) (out : List Str),
      (mergeFiles g fs ps dpList out).1
        = (ps.map (fun p => (getDependencies g fs p []).1)).foldl mergeDependencies dpList := by
  induction ps with
  | nil => intro dpList out; rfl
  | cons p ps ih =>
    intro dpList out
    unfold mergeFiles
    dsimp only
    rw [ih, List.map_cons, List.foldl_cons, getDependencies_out g fs p out []]

theorem mergeDependencies_eq_foldl (dest src : List Dependency) :
    mergeDependencies dest src = src.foldl mergeStep dest := rfl

theorem any_same_iff_mem (dest : List Dependency) (dep : Dependency) :
    dest.any (fun d => decide (d.branch = dep.branch ∧ d.url = dep.url)) = true ↔ dep ∈ dest := by
  rw [List.any_eq_true]
  constructor
  · rintro ⟨d, hd, h⟩
    have h2 := of_decide_eq_true h
    have : d = dep := by
      cases d; cases dep; simp_all
    exact this ▸ hd
  · intro h
    exact ⟨dep, h, by simp⟩

theorem mergeStep_eq (dest : List Dependency) (dep : Dependency) :
    mergeStep dest dep = if dep ∈ dest then dest else dest ++ [dep] := by
  unfold mergeStep
  by_cases h : dep ∈ dest
  · rw [if_pos ((any_same_iff_mem dest dep).2 h), if_pos h]
  · rw [if_neg (fun h2 => h ((any_same_iff_mem dest dep).1 h2)), if_neg h]

theorem firstOccurrences_snoc (l : List Dependency) (x : Dependency) :
    firstOccurrences (l ++ [x]) =
      if x ∈ l then firstOccurrences l else firstOccurrences l ++ [x] := by
  unfold firstOccurrences
  rw [List.length_append, List.length_singleton, List.range_succ, List.filterMap_append]
  have h1 : List.filterMap
      (fun i => match (l ++ [x])[i]? with
        | some r => if r ∈ (l ++ [x]).take i then none else some r
        | none => none) (List.range l.length)
      = List.filterMap
      (fun i => match l[i]? with
        | some r => if r ∈ l.take i then none else some r
        | none => none) (List.range l.length) := by
    apply List.filterMap_congr
    intro i hi
    have hi2 : i < l.length := List.mem_range.1 hi
    rw [List.getElem?_append_left hi2, List.take_append_of_le_length (Nat.le_of_lt hi2)]
  rw [h1]
  have h2 : (l ++ [x])[l.length]? = some x := by
    rw [List.getElem?_append_right (Nat.le_refl _)]
    simp
  have h3 : (l ++ [x]).take l.length = l := by
    rw [List.take_append_of_le_length (Nat.le_refl _), List.take_length]
  by_cases hx : x ∈ l
  · simp [h2, h3, hx]
  · simp [h2, h3, hx]

theorem foldl_mergeStep_mem (l : List Dependency) :
    ∀ r, r ∈ l.foldl mergeStep [] ↔ r ∈ l := by
  induction l using List.reverseRecOn with
  | nil => simp
  | append_singleton l x ih =>
    intro r
    rw [List.foldl_append, List.foldl_cons, List.foldl_nil, mergeStep_eq]
    by_cases hx : x ∈ l.foldl mergeStep []
    · rw [if_pos hx, ih]
      constructor
      · intro h; exact List.mem_append_left _ h
      · intro h
        rcases List.mem_append.1 h with h | h
        · exact h
        · rw [List.mem_singleton.1 h]; exact (ih x).1 hx
    · rw [if_neg hx, List.mem_append, List.mem_append, ih]

theorem foldl_mergeStep_eq (l : List Dependency) :
    l.foldl mergeStep [] = firstOccurrences l := by
  induction l using List.reverseRecOn with
  | nil => rfl
  | append_singleton l x ih =>
    rw [List.foldl_append, List.foldl_cons, List.foldl_nil, mergeStep_eq,
      firstOccurrences_snoc, ← ih]
    by_cases hx : x ∈ l
    · rw [if_pos hx, if_pos ((foldl_mergeStep_mem l x).2 hx)]
    · rw [if_neg hx, if_neg (fun h => hx ((foldl_mergeStep_mem l x).1 h))]

theorem foldl_mergeStep_nodup (l : List Dependency) : (l.foldl mergeStep []).Nodup := by
  induction l using List.reverseRecOn with
  | nil => simp
  | append_singleton l x ih =>
    rw [List.foldl_append, List.foldl_cons, List.foldl_nil, mergeStep_eq]
    by_cases hx : x ∈ l.foldl mergeStep []
    · rw [if_pos hx]; exact ih
    · rw [if_neg hx]
      exact List.Nodup.append ih (List.nodup_singleton x)
        (by
          intro a ha hb
          rw [List.mem_singleton.1 hb] at ha
          exact hx ha)

theorem mergeDependencies_prefix (dest src : List Dependency) :
    dest <+: mergeDependencies dest src := by
  rw [mergeDependencies_eq_foldl]
  induction src generalizing dest with
  | nil => exact List.prefix_refl dest
  | cons x xs ih =>
    rw [List.foldl_cons]
    refine List.IsPrefix.trans ?_ (ih (mergeStep dest x))
    rw [mergeStep_eq]
    by_cases hx : x ∈ dest
    · rw [if_pos hx]
    · rw [if_neg hx]; exact List.prefix_append dest [x]

theorem foldl_mergeDependencies (lists : List (List Dependency)) (dest : List Dependency) :
    lists.foldl mergeDependencies dest = lists.flatten.foldl mergeStep dest := by
  rw [List.foldl_flatten]
  rfl

/-- C1: merging any sequence of record lists in order into the empty set gives
the concatenation of the lists with every record that occurred earlier
removed; the result has no two equal elements, holds each record of the inputs
exactly once and nothing else, and a merge only appends to the set it is
given, so that records already in it keep their position and value.  The loop
of `populateDependencyList` over the located files is such a merge of the
per-file lists. -/
theorem mergeDependencies_first_occurrences (lists : List (List Dependency)) :
    lists.foldl mergeDependencies [] = firstOccurrences lists.flatten
    ∧ (lists.foldl mergeDependencies []).Nodup
    ∧ (∀ r, r ∈ lists.foldl mergeDependencies [] ↔ ∃ l ∈ lists, r ∈ l)
    ∧ (∀ r, (∃ l ∈ lists, r ∈ l) → (lists.foldl mergeDependencies []).count r = 1)
    ∧ (∀ dest src, dest <+: mergeDependencies dest src)
    ∧ (∀ g fs ps out, (mergeFiles g fs ps [] out).1
        = firstOccurrences (ps.map (fun p => (getDependencies g fs p []).1)).flatten) := by
  have hmem : ∀ r, r ∈ lists.foldl mergeDependencies [] ↔ ∃ l ∈ lists, r ∈ l := by
    intro r
    rw [foldl_mergeDependencies, foldl_mergeStep_mem, List.mem_flatten]
  have hnd : (lists.foldl mergeDependencies []).Nodup := by
    rw [foldl_mergeDependencies]; exact foldl_mergeStep_nodup _
  refine ⟨?_, hnd, hmem, ?_, mergeDependencies_prefix, ?_⟩
  · rw [foldl_mergeDependencies, foldl_mergeStep_eq]
  · intro r hr
    exact List.count_eq_one_of_mem hnd ((hmem r).2 hr)
  · intro g fs ps out
    rw [mergeFiles_eq_foldl, foldl_mergeDependencies, foldl_mergeStep_eq]

theorem isMarker_iff (c : Char) :
    isMarker c = true ↔ c ∈ ['<', '>', '"', '|'] := by
  unfold isMarker
  simp [Bool.or_eq_true]
  tauto

theorem readLineLoop_plain (P : Str)
    (hP : ∀ c ∈ P, c ∉ ['<', '>', '"', '|', '\r', '\n']) :
    ∀ (rest data : Str),
      readLineLoop (P ++ rest) false data = readLineLoop rest false (data ++ P) := by
  induction P with
  | nil => intro rest data; simp
  | cons c cs ih =>
    intro rest data
    have hc := hP c (List.mem_cons_self c cs)
    have hcr : c ≠ '\r' := fun h => hc (by simp [h])
    have hnl : c ≠ '\n' := fun h => hc (by simp [h])
    have hm : isMarker c = false := by
      rw [Bool.eq_false_iff]
      intro h
      rw [isMarker_iff] at h
      apply hc
      simp only [List.mem_cons] at h ⊢
      tauto
    have hcs : ∀ d ∈ cs, d ∉ ['<', '>', '"', '|', '\r', '\n'] :=
      fun d hd => hP d (List.mem_cons_of_mem c hd)
    rw [List.cons_append, readLineLoop, if_neg hcr, if_neg hnl]
    simp only [hm, Bool.false_eq_true, if_false]
    rw [ih hcs, List.append_assoc, List.singleton_append]

theorem readLineLoop_comment (t : Str) (ht : '\n' ∉ t) :
    ∀ (rest data : Str),
      readLineLoop (t ++ rest) true data = readLineLoop rest true data := by
  induction t with
  | nil => intro rest data; rfl
  | cons c cs ih =>
    intro rest data
    have hnl : c ≠ '\n' := fun h => ht (by simp [h])
    have hcs : '\n' ∉ cs := fun h => ht (List.mem_cons_of_mem c h)
    rw [List.cons_append, readLineLoop]
    by_cases hcr : c = '\r'
    · rw [if_pos hcr]; exact ih hcs rest data
    · rw [if_neg hcr, if_neg hnl]
      simp only [ite_self, if_true]
      exact ih hcs rest data

theorem readLineLoop_marker (m : Char) (hm : m ∈ ['<', '>', '"', '|']) (s data : Str) :
    readLineLoop (m :: s) false data = readLineLoop s true data := by
  have h1 : isMarker m = true := (isMarker_iff m).2 hm
  have hcr : m ≠ '\r' := by
    intro h; rw [h] at hm; revert hm; decide
  have hnl : m ≠ '\n' := by
    intro h; rw [h] at hm; revert hm; decide
  rw [readLineLoop, if_neg hcr, if_neg hnl]
  simp only [h1, if_true]

theorem readLineLoop_commented_line (P : Str) (m : Char) (t rest : Str)
    (hne : P ≠ [])
    (hP : ∀ c ∈ P, c ∉ ['<', '>', '"', '|', '\r', '\n'])
    (hm : m ∈ ['<', '>', '"', '|']) (ht : '\n' ∉ t) :
    readLineLoop (P ++ m :: (t ++ '\n' :: rest)) false [] = (P, rest)
    ∧ readLineLoop (P ++ m :: t) false [] = (P, []) := by
  constructor
  · rw [readLineLoop_plain P hP, readLineLoop_marker m hm, readLineLoop_comment t ht,
      List.nil_append, readLineLoop, if_neg (by decide), if_pos rfl,
      if_neg (fun h => hne (List.length_eq_zero.1 h))]
  · have h := readLineLoop_comment t ht [] ([] ++ P)
    rw [List.append_nil] at h
    rw [readLineLoop_plain P hP, readLineLoop_marker m hm, h, List.nil_append, readLineLoop]

theorem validateDependency_strict (g : GlobalParameters) (file : ifstream) (out : List Str)
    (hg : g.ignoreDependencyFileHeader = false)
    (hh : (readLineLoop file.content false []).1 ≠ headerSentinel) :
    (validateDependency g file out).1 = false := by
  unfold validateDependency
  split
  · rfl
  · rename_i ho
    simp only [readLine, ho, hg, Bool.and_false, Bool.not_true, Bool.false_eq_true, if_false]
    exact decide_eq_false hh

theorem validateDependency_override (g : GlobalParameters) (file : ifstream) (out : List Str)
    (hg : g.ignoreDependencyFileHeader = true) (ho : file.is_open = true) :
    (validateDependency g file out).1 = true := by
  unfold validateDependency
  rw [if_neg (by simp [ho])]
  simp only [hg, Bool.and_true]
  split
  · rfl
  · rename_i h
    simpa using h

/-- C2: with the ignore-header override off, a file whose first decoded line
(the line `readLine` returns from the start of the file) is not the sentinel
`#DEPENDENCIES` is rejected by `validateDependency`, `getDependencies` returns
no record for it, and merging its records leaves every set unchanged; with the
override on, `validateDependency` accepts every open file. -/
theorem header_enforcement (g : GlobalParameters) (file : ifstream) (out : List Str) :
    (g.ignoreDependencyFileHeader = false →
      (readLineLoop file.content false []).1 ≠ headerSentinel →
      (validateDependency g file out).1 = false
      ∧ (getDependenciesFrom g file out).1 = []
      ∧ ∀ dest, mergeDependencies dest (getDependenciesFrom g file out).1 = dest)
    ∧ (g.ignoreDependencyFileHeader = false → ∀ (fs : FileSystem) (path : Str),
        (∀ c, fs.read path = some c → (readLineLoop c false []).1 ≠ headerSentinel) →
        (getDependencies g fs path out).1 = [])
    ∧ (g.ignoreDependencyFileHeader = true → file.is_open = true →
        (validateDependency g file out).1 = true) := by
  have key : ∀ f : ifstream, g.ignoreDependencyFileHeader = false →
      (readLineLoop f.content false []).1 ≠ headerSentinel →
      (getDependenciesFrom g f out).1 = [] := by
    intro f hg hh
    unfold getDependenciesFrom
    simp only [validateDependency_strict g f out hg hh, Bool.not_false, if_true]
  refine ⟨?_, ?_, validateDependency_override g file out⟩
  · intro hg hh
    refine ⟨validateDependency_strict g file out hg hh, key file hg hh, ?_⟩
    intro dest
    rw [key file hg hh]
    rfl
  · intro hg fs path hc
    unfold getDependencies
    cases hr : fs.read path with
    | none =>
      unfold getDependenciesFrom validateDependency openFile
      simp [hr]
    | some c =>
      apply key _ hg
      have : (openFile fs path).content = c := by
        unfold openFile; rw [hr]
      rw [this]
      exact hc c hr

/-- C2, at a file: with the override off the file `u r` is rejected and yields
no record; with the override on it is accepted. -/
theorem header_enforcement_witness :
    (validateDependency
        { ignoreCurrentPath := false, ignoreDependencyFileHeader := false, ignorePull := false,
          cleanRepo := false, verboseLog := false }
        { is_open := true, content := "u r\n".toList, rest := "u r\n".toList } []).1 = false
    ∧ (getDependenciesFrom
        { ignoreCurrentPath := false, ignoreDependencyFileHeader := false, ignorePull := false,
          cleanRepo := false, verboseLog := false }
        { is_open := true, content := "u r\n".toList, rest := "u r\n".toList } []).1 = []
    ∧ (validateDependency
        { ignoreCurrentPath := false, ignoreDependencyFileHeader := true, ignorePull := false,
          cleanRepo := false, verboseLog := false }
        { is_open := true, content := "u r\n".toList, rest := "u r\n".toList } []).1 = true :=
  ⟨((header_enforcement _ _ []).1 rfl (by decide)).1,
   ((header_enforcement _ _ []).1 rfl (by decide)).2.1,
   (header_enforcement _ _ []).2.2 rfl rfl⟩

theorem find_last_of_none (s : Str) (c : Char) (h : c ∉ s) : find_last_of s c = none := by
  induction s with
  | nil => rfl
  | cons x xs ih =>
    have hx : x ≠ c := fun e => h (by simp [e])
    have hxs : c ∉ xs := fun e => h (List.mem_cons_of_mem x e)
    rw [find_last_of, ih hxs]
    simp [hx]

theorem find_last_of_append (pre seg : Str) (c : Char) (h : c ∉ seg) :
    find_last_of (pre ++ c :: seg) c = some pre.length := by
  induction pre with
  | nil =>
    rw [List.nil_append, find_last_of, find_last_of_none seg c h]
    simp
  | cons x xs ih =>
    rw [List.cons_append, find_last_of, ih]
    rfl

theorem stripFrom_absent (url : Str) (c : Char) (h : c ∉ url) : stripFrom url c = url := by
  unfold stripFrom
  rw [if_neg h]

theorem stripFrom_append (pre seg : Str) (c : Char) (h : c ∉ seg) :
    stripFrom (pre ++ c :: seg) c = pre := by
  unfold stripFrom
  rw [if_pos (by simp), find_last_of_append pre seg c h]
  simp

theorem afterLastSlash_append (pre seg : Str) (h : '/' ∉ seg) :
    afterLastSlash (pre ++ '/' :: seg) = seg := by
  unfold afterLastSlash
  rw [find_last_of_append pre seg '/' h]
  simp

theorem afterLastSlash_absent (url : Str) (h : '/' ∉ url) : afterLastSlash url = url := by
  unfold afterLastSlash
  rw [find_last_of_none url '/' h]

theorem getLibraryName_clean (url ref : Str) (last : Char)
    (hf : '#' ∉ url) (hq : '?' ∉ url)
    (hlast : url.getLast? = some last) (hal : last ∈ allowedChars) :
    getLibraryName { url := url, branch := ref }
      = some (afterLastSlash url ++ "-".toList ++ ref) := by
  unfold getLibraryName
  simp only [stripFrom_absent url '#' hf, stripFrom_absent url '?' hq, hlast, hal, if_true]

/-- C3: `getLibraryName` takes the record and nothing else, and on a record
whose source location has no `#` and no `?` and ends in an allow-listed
character it returns the part of the source location after its last `/` (all
of it when there is none), then `-`, then the ref; the record
(`https://example.com/org/repo.git`, `main`) gives `repo.git-main`. -/
theorem getLibraryName_last_segment (url ref : Str) (last : Char)
    (hf : '#' ∉ url) (hq : '?' ∉ url)
    (hlast : url.getLast? = some last) (hal : last ∈ allowedChars) :
    (∀ pre seg, url = pre ++ '/' :: seg → '/' ∉ seg →
      getLibraryName { url := url, branch := ref } = some (seg ++ "-".toList ++ ref))
    ∧ ('/' ∉ url →
      getLibraryName { url := url, branch := ref } = some (url ++ "-".toList ++ ref))
    ∧ (∀ d : Dependency, d.url = url → d.branch = ref →
      getLibraryName d = getLibraryName { url := url, branch := ref })
    ∧ getLibraryName
        { url := "https://example.com/org/repo.git".toList, branch := "main".toList }
        = some "repo.git-main".toList := by
  have h := getLibraryName_clean url ref last hf hq hlast hal
  refine ⟨?_, ?_, ?_, by decide⟩
  · intro pre seg hu hs
    rw [h, hu, afterLastSlash_append pre seg hs]
  · intro hs
    rw [h, afterLastSlash_absent url hs]
  · intro d hu hb
    cases d
    simp only at hu hb
    rw [hu, hb]

/-- C3, at the record (`git@host:org/lib`, `v1`): the name is `lib-v1`. -/
theorem getLibraryName_last_segment_witness :
    getLibraryName { url := "git@host:org/lib".toList, branch := "v1".toList }
      = some "lib-v1".toList :=
  (getLibraryName_last_segment "git@host:org/lib".toList "v1".toList 'b'
    (by decide) (by decide) (by decide) (by decide)).1
    "git@host:org".toList "lib".toList (by decide) (by decide)

theorem stripFrom_query_after_fragment (base t : Str) (hb : '#' ∉ base) (ht : '?' ∉ t) :
    stripFrom (stripFrom (base ++ '?' :: t) '#') '?' = base := by
  by_cases h : '#' ∈ t
  · obtain ⟨t1, t2, rfl, h2⟩ : ∃ t1 t2, t = t1 ++ '#' :: t2 ∧ '#' ∉ t2 := by
      clear ht hb
      induction t with
      | nil => simp at h
      | cons x xs ih =>
        by_cases hx : '#' ∈ xs
        · obtain ⟨t1, t2, e, h2⟩ := ih hx
          exact ⟨x :: t1, t2, by rw [e]; rfl, h2⟩
        · have : x = '#' := by
            rcases List.mem_cons.1 h with e | e
            · exact e.symm
            · exact absurd e hx
          exact ⟨[], xs, by rw [this]; rfl, hx⟩
    have e : base ++ '?' :: (t1 ++ '#' :: t2) = (base ++ '?' :: t1) ++ '#' :: t2 := by simp
    rw [e, stripFrom_append _ t2 '#' h2]
    exact stripFrom_append base t1 '?' (fun h1 => ht (by simp [h1]))
  · have hn : '#' ∉ base ++ '?' :: t := by
      intro hh
      rcases List.mem_append.1 hh with h1 | h1
      · exact hb h1
      · rcases List.mem_cons.1 h1 with h3 | h3
        · revert h3; decide
        · exact h h3
    rw [stripFrom_absent _ '#' hn]
    exact stripFrom_append base t '?' ht

/-- C4, as amended: for a base that has no `#` and no `?` and ends in an
allow-listed character, a fragment suffix `#t` with no further `#` in `t`, or
a query suffix `?t` with no further `?` in `t`, does not change the library
name, which is the last segment of the base, `-` and the ref unchanged;
`https://example.com/org/repo#readme?x=1` with ref `r` gives `repo-r`. -/
theorem getLibraryName_suffix_stripped (base ref : Str) (last : Char)
    (hf : '#' ∉ base) (hq : '?' ∉ base)
    (hlast : base.getLast? = some last) (hal : last ∈ allowedChars) :
    (∀ t, '#' ∉ t →
      getLibraryName { url := base ++ '#' :: t, branch := ref }
        = getLibraryName { url := base, branch := ref })
    ∧ (∀ t, '?' ∉ t →
      getLibraryName { url := base ++ '?' :: t, branch := ref }
        = getLibraryName { url := base, branch := ref })
    ∧ getLibraryName { url := base, branch := ref }
        = some (afterLastSlash base ++ "-".toList ++ ref)
    ∧ getLibraryName
        { url := "https://example.com/org/repo#readme?x=1".toList, branch := ref }
        = some ("repo-".toList ++ ref) := by
  have h := getLibraryName_clean base ref last hf hq hlast hal
  refine ⟨?_, ?_, h, ?_⟩
  · intro t ht
    rw [h]
    unfold getLibraryName
    simp only [stripFrom_append base t '#' ht, stripFrom_absent base '?' hq, hlast, hal, if_true]
  · intro t ht
    rw [h]
    unfold getLibraryName
    simp only [stripFrom_query_after_fragment base t hf ht, hlast, hal, if_true]
  · unfold getLibraryName
    have e1 : stripFrom (stripFrom "https://example.com/org/repo#readme?x=1".toList '#') '?'
        = "https://example.com/org/repo".toList := by decide
    simp only [e1]
    have e2 : ("https://example.com/org/repo".toList).getLast? = some 'o' := by decide
    have e3 : 'o' ∈ allowedChars := by decide
    have e4 : afterLastSlash "https://example.com/org/repo".toList = "repo".toList := by decide
    simp only [e2, e3, if_true, e4]
    rfl

/-- C4, at the base `org/repo`: the suffixes `#readme?x=1` and `?x=1#top`
leave the name `repo-main`. -/
theorem getLibraryName_suffix_stripped_witness :
    getLibraryName { url := "org/repo#readme?x=1".toList, branch := "main".toList }
      = getLibraryName { url := "org/repo".toList, branch := "main".toList }
    ∧ getLibraryName { url := "org/repo?x=1#top".toList, branch := "main".toList }
      = getLibraryName { url := "org/repo".toList, branch := "main".toList } :=
  ⟨(getLibraryName_suffix_stripped "org/repo".toList "main".toList 'o'
      (by decide) (by decide) (by decide) (by decide)).1 "readme?x=1".toList (by decide),
   (getLibraryName_suffix_stripped "org/repo".toList "main".toList 'o'
      (by decide) (by decide) (by decide) (by decide)).2.1 "x=1#top".toList (by decide)⟩

/-- C4 as stated fails: with base `repo`, a fragment text `a#b` and a query
text `a?b`, the names are `repo#a-r` and `repo?a-r`, not `repo-r`. -/
theorem getLibraryName_suffix_counterexample :
    ¬ (∀ (base t ref : Str) (last : Char), base ≠ [] → '#' ∉ base → '?' ∉ base →
        base.getLast? = some last → last ∈ allowedChars →
        getLibraryName { url := base ++ '#' :: t, branch := ref }
          = getLibraryName { url := base, branch := ref })
    ∧ ¬ (∀ (base t ref : Str) (last : Char), base ≠ [] → '#' ∉ base → '?' ∉ base →
        base.getLast? = some last → last ∈ allowedChars →
        getLibraryName { url := base ++ '?' :: t, branch := ref }
          = getLibraryName { url := base, branch := ref })
    ∧ getLibraryName { url := "repo#a#b".toList, branch := "r".toList }
        = some "repo#a-r".toList
    ∧ getLibraryName { url := "repo?a?b".toList, branch := "r".toList }
        = some "repo?a-r".toList
    ∧ getLibraryName { url := "repo".toList, branch := "r".toList } = some "repo-r".toList := by
  refine ⟨?_, ?_, by decide, by decide, by decide⟩
  · intro h
    have h1 := h "repo".toList "a#b".toList "r".toList 'o' (by decide) (by decide) (by decide)
      (by decide) (by decide)
    revert h1
    decide
  · intro h
    have h1 := h "repo".toList "a?b".toList "r".toList 'o' (by decide) (by decide) (by decide)
      (by decide) (by decide)
    revert h1
    decide

theorem readDependency_of_readLine (dep : Dependency) (file : ifstream) (line rest : Str)
    (ho : file.is_open = true) (hne : line ≠ [])
    (h : readLineLoop file.rest false [] = (line, rest)) :
    readLine file = (line, { file with rest := rest })
    ∧ readDependency dep file
      = (true, { url := (scanLine line 0 [] []).1, branch := (scanLine line 0 [] []).2 },
          { file with rest := rest }) := by
  have h1 : readLine file = (line, { file with rest := rest }) := by
    unfold readLine
    simp only [ho, Bool.not_true, Bool.false_eq_true, if_false, h]
  refine ⟨h1, ?_⟩
  unfold readDependency
  simp only [ho, Bool.not_true, Bool.false_eq_true, if_false, h1]
  have : line.isEmpty = false := by
    cases line with
    | nil => exact absurd rfl hne
    | cons a l => rfl
  simp only [this, Bool.false_eq_true, if_false]

/-- C5: when the unread input starts with a physical line `P m t` where `P` is
not empty and has no marker, carriage return or line feed, `m` is a marker and
`t` has no line feed, `readLine` returns exactly `P` and leaves the input after
the line feed (or nothing when the input ends with the line), and
`readDependency` returns the record scanned from `P`; the line
`https://x/y main "extra"` gives the record (`https://x/y`, `main`). -/
theorem readLine_trailing_comment (dep : Dependency) (file : ifstream) (P : Str) (m : Char)
    (t rest : Str) (ho : file.is_open = true) (hne : P ≠ [])
    (hP : ∀ c ∈ P, c ∉ ['<', '>', '"', '|', '\r', '\n'])
    (hm : m ∈ ['<', '>', '"', '|']) (ht : '\n' ∉ t) :
    (file.rest = P ++ m :: (t ++ '\n' :: rest) →
      readLine file = (P, { file with rest := rest })
      ∧ readDependency dep file
        = (true, { url := (scanLine P 0 [] []).1, branch := (scanLine P 0 [] []).2 },
            { file with rest := rest }))
    ∧ (file.rest = P ++ m :: t →
      readLine file = (P, { file with rest := [] })
      ∧ readDependency dep file
        = (true, { url := (scanLine P 0 [] []).1, branch := (scanLine P 0 [] []).2 },
            { file with rest := [] }))
    ∧ (readDependency dep { file with rest := P }).2.1
        = { url := (scanLine P 0 [] []).1, branch := (scanLine P 0 [] []).2 }
    ∧ (readDependency dep
        { is_open := true, content := "https://x/y main \"extra\"\n".toList,
          rest := "https://x/y main \"extra\"\n".toList }).2.1
        = { url := "https://x/y".toList, branch := "main".toList } := by
  have hc := readLineLoop_commented_line P m t rest hne hP hm ht
  refine ⟨?_, ?_, ?_, ?_⟩
  · intro hr
    exact readDependency_of_readLine dep file P rest ho hne (by rw [hr]; exact hc.1)
  · intro hr
    exact readDependency_of_readLine dep file P [] ho hne (by rw [hr]; exact hc.2)
  · have h0 := readLineLoop_plain P hP [] []
    rw [List.append_nil, List.nil_append] at h0
    have h1 : readLineLoop P false [] = (P, []) := by rw [h0]; rfl
    have := (readDependency_of_readLine dep { file with rest := P } P [] ho hne h1).2
    rw [this]
  · have := (readDependency_of_readLine dep
      { is_open := true, content := "https://x/y main \"extra\"\n".toList,
        rest := "https://x/y main \"extra\"\n".toList }
      "https://x/y main ".toList [] rfl (by decide) (by decide)).2
    rw [this]
    decide

/-- C5, at the input `u r<note` followed by the line `v s`: the read returns
`u r` and leaves `v s`. -/
theorem readLine_trailing_comment_witness :
    readLine { is_open := true, content := [], rest := "u r<note\nv s".toList }
      = ("u r".toList, { is_open := true, content := [], rest := "v s".toList }) :=
  ((readLine_trailing_comment { url := [], branch := [] }
    { is_open := true, content := [], rest := "u r<note\nv s".toList }
    "u r".toList '<' "note".toList "v s".toList rfl (by decide) (by decide) (by decide)
    (by decide)).1 (by decide)).1

theorem stripCR_cons_cr (cs : Str) : stripCR ('\r' :: cs) = stripCR cs := by
  unfold stripCR
  rw [List.filter_cons_of_neg (by decide)]

theorem stripCR_cons_other (c : Char) (cs : Str) (h : c ≠ '\r') :
    stripCR (c :: cs) = c :: stripCR cs := by
  unfold stripCR
  rw [List.filter_cons_of_pos (by simpa using h)]

theorem readLineLoop_stripCR (s : Str) :
    ∀ (comment : Bool) (data : Str),
      readLineLoop (stripCR s) comment data
        = ((readLineLoop s comment data).1, stripCR (readLineLoop s comment data).2) := by
  induction s with
  | nil => intro comment data; rfl
  | cons c cs ih =>
    intro comment data
    by_cases hcr : c = '\r'
    · subst hcr
      rw [stripCR_cons_cr, ih]
      conv_rhs => rw [readLineLoop, if_pos rfl]
    · rw [stripCR_cons_other c cs hcr]
      conv_rhs => rw [readLineLoop, if_neg hcr]
      rw [readLineLoop, if_neg hcr]
      by_cases hnl : c = '\n'
      · rw [if_pos hnl, if_pos hnl]
        by_cases hd : data.length = 0
        · rw [if_pos hd, if_pos hd]; exact ih comment data
        · rw [if_neg hd, if_neg hd]
      · rw [if_neg hnl, if_neg hnl]
        dsimp only
        split <;> (try split) <;> exact ih _ _

theorem readLineLoop_rest_length (s : Str) :
    ∀ (comment : Bool) (data : Str),
      (readLineLoop s comment data).2.length ≤ s.length := by
  induction s with
  | nil => intro comment data; simp [readLineLoop]
  | cons c cs ih =>
    intro comment data
    rw [readLineLoop]
    have h1 : ∀ (cm : Bool) (d : Str), (readLineLoop cs cm d).2.length ≤ (c :: cs).length :=
      fun cm d => Nat.le_succ_of_le (ih cm d)
    split
    · exact h1 _ _
    · split
      · split
        · exact h1 _ _
        · simp
      · dsimp only
        split <;> (try split) <;> exact h1 _ _

theorem readLineLoop_consumes (s : Str) (comment : Bool) (data : Str)
    (h : (readLineLoop s comment data).1 ≠ data) :
    (readLineLoop s comment data).2.length < s.length := by
  cases s with
  | nil => exact absurd rfl h
  | cons c cs =>
    have h1 : ∀ (cm : Bool) (d : Str), (readLineLoop cs cm d).2.length < (c :: cs).length :=
      fun cm d => Nat.lt_succ_of_le (readLineLoop_rest_length cs cm d)
    rw [readLineLoop]
    split
    · exact h1 _ _
    · split
      · split
        · exact h1 _ _
        · simp
      · dsimp only
        split <;> (try split) <;> exact h1 _ _

theorem readDependency_consumes (dep : Dependency) (file : ifstream)
    (h : (readDependency dep file).1 = true) :
    (readDependency dep file).2.2.rest.length < file.rest.length
    ∧ (readDependency dep file).2.2.is_open = file.is_open := by
  unfold readDependency at h ⊢
  split at h
  · exact absurd h (by simp)
  · rename_i ho
    rw [if_neg ho]
    dsimp only at h ⊢
    split at h
    · exact absurd h (by simp)
    · rename_i hne
      rw [if_neg hne]
      dsimp only
      have ho2 : file.is_open = true := by simpa using ho
      unfold readLine at hne ⊢
      simp only [ho2, Bool.not_true, Bool.false_eq_true, if_false] at hne ⊢
      refine ⟨readLineLoop_consumes file.rest false [] ?_, trivial⟩
      intro e
      rw [e] at hne
      exact hne rfl

theorem readDependency_stripCR (dep : Dependency) (f f2 : ifstream)
    (ho : f2.is_open = f.is_open) (hr : f2.rest = stripCR f.rest) :
    (readDependency dep f2).1 = (readDependency dep f).1
    ∧ (readDependency dep f2).2.1 = (readDependency dep f).2.1
    ∧ (readDependency dep f2).2.2.is_open = (readDependency dep f).2.2.is_open
    ∧ (readDependency dep f2).2.2.rest = stripCR (readDependency dep f).2.2.rest := by
  unfold readDependency readLine
  rw [ho, hr, readLineLoop_stripCR]
  cases hopen : f.is_open with
  | false => simp [ho, hr, hopen]
  | true =>
    simp only [Bool.not_true, Bool.false_eq_true, if_false]
    split
    · simp [ho, hopen]
    · simp [ho, hopen]

theorem readAll_stripCR :
    ∀ (fuel fuel2 : Nat) (dep : Dependency) (f f2 : ifstream) (acc : List Dependency),
      f2.is_open = f.is_open → f2.rest = stripCR f.rest →
      f.rest.length < fuel → f2.rest.length < fuel2 →
      readAll fuel2 dep f2 acc = readAll fuel dep f acc := by
  intro fuel
  induction fuel with
  | zero => intro fuel2 dep f f2 acc _ _ h _; exact absurd h (Nat.not_lt_zero _)
  | succ n ih =>
    intro fuel2 dep f f2 acc ho hr h1 h2
    cases fuel2 with
    | zero => exact absurd h2 (Nat.not_lt_zero _)
    | succ k =>
      obtain ⟨e1, e2, e3, e4⟩ := readDependency_stripCR dep f f2 ho hr
      rw [readAll, readAll]
      rw [e1, e2]
      cases hv : (readDependency dep f).1 with
      | false => simp
      | true =>
        simp only [if_true]
        have c1 := readDependency_consumes dep f hv
        have c2 := readDependency_consumes dep f2 (e1.trans hv)
        exact ih k _ _ _ _ e3 e4 (by omega) (by omega)

theorem validateDependency_stripCR (g : GlobalParameters) (f f2 : ifstream) (out : List Str)
    (ho : f2.is_open = f.is_open) (hc : f2.content = stripCR f.content) :
    (validateDependency g f2 out).1 = (validateDependency g f out).1
    ∧ (validateDependency g f2 out).2.1.is_open = (validateDependency g f out).2.1.is_open
    ∧ (f.is_open = true →
        (validateDependency g f2 out).2.1.rest = stripCR (validateDependency g f out).2.1.rest)
    ∧ (validateDependency g f2 out).2.2 = (validateDependency g f out).2.2 := by
  unfold validateDependency readLine
  rw [ho]
  cases hopen : f.is_open with
  | false => simp [hopen, ho]
  | true =>
    simp only [Bool.not_true, Bool.false_eq_true, if_false, hc, readLineLoop_stripCR]
    split <;> simp [ho, hopen]

theorem validateDependency_closed (g : GlobalParameters) (f : ifstream) (out : List Str)
    (ho : f.is_open = false) : validateDependency g f out = (false, f, out) := by
  unfold validateDependency
  simp [ho]

theorem getDependenciesFrom_stripCR (g : GlobalParameters) (f f2 : ifstream) (out : List Str)
    (ho : f2.is_open = f.is_open) (hc : f2.content = stripCR f.content) :
    getDependenciesFrom g f2 out = getDependenciesFrom g f out := by
  cases hopen : f.is_open with
  | false =>
    unfold getDependenciesFrom
    rw [validateDependency_closed g f out hopen,
      validateDependency_closed g f2 out (ho.trans hopen)]
    rfl
  | true =>
    obtain ⟨e1, e2, e3, e4⟩ := validateDependency_stripCR g f f2 out ho hc
    unfold getDependenciesFrom
    dsimp only
    rw [e1, e4]
    split
    · rfl
    · rw [readAll_stripCR _ _ _ _ _ _ e2 (e3 hopen) (Nat.lt_succ_self _) (Nat.lt_succ_self _)]

theorem readAll_enough_fuel :
    ∀ (fuel fuel2 : Nat) (dep : Dependency) (f : ifstream) (acc : List Dependency),
      f.rest.length < fuel → f.rest.length < fuel2 →
      readAll fuel2 dep f acc = readAll fuel dep f acc := by
  intro fuel
  induction fuel with
  | zero => intro fuel2 dep f acc h _; exact absurd h (Nat.not_lt_zero _)
  | succ n ih =>
    intro fuel2 dep f acc h1 h2
    cases fuel2 with
    | zero => exact absurd h2 (Nat.not_lt_zero _)
    | succ k =>
      rw [readAll, readAll]
      cases hv : (readDependency dep f).1 with
      | false => simp
      | true =>
        simp only [if_true]
        have c1 := readDependency_consumes dep f hv
        exact ih k _ _ _ (by omega) (by omega)

/-- C6: for every input `s`, `readLine` on `s` without its carriage returns
gives the decoded line of `s` and leaves what `s` leaves, without its carriage
returns; so two files that differ only in carriage returns, wherever these
stand, give the same result of `getDependencies`. -/
theorem carriage_returns_ignored (g : GlobalParameters) (s : Str) (out : List Str) :
    readLineLoop (stripCR s) false []
      = ((readLineLoop s false []).1, stripCR (readLineLoop s false []).2)
    ∧ (∀ file : ifstream, file.is_open = true → file.rest = s →
        readLine { file with rest := stripCR s }
          = ((readLine file).1, { file with rest := stripCR (readLine file).2.rest }))
    ∧ (∀ s2 : Str, stripCR s2 = stripCR s →
        getDependenciesFrom g { is_open := true, content := s2, rest := s2 } out
          = getDependenciesFrom g { is_open := true, content := s, rest := s } out)
    ∧ (∀ (fs fs2 : FileSystem) (path : Str) (s2 : Str), stripCR s2 = stripCR s →
        fs.read path = some s → fs2.read path = some s2 →
        getDependencies g fs2 path out = getDependencies g fs path out) := by
  have key : ∀ s2 : Str, stripCR s2 = stripCR s →
      getDependenciesFrom g { is_open := true, content := s2, rest := s2 } out
        = getDependenciesFrom g { is_open := true, content := s, rest := s } out := by
    intro s2 h
    have a := getDependenciesFrom_stripCR g { is_open := true, content := s, rest := s }
      { is_open := true, content := stripCR s, rest := stripCR s } out rfl rfl
    have b := getDependenciesFrom_stripCR g { is_open := true, content := s2, rest := s2 }
      { is_open := true, content := stripCR s, rest := stripCR s } out rfl h.symm
    rw [← a, ← b]
  refine ⟨readLineLoop_stripCR s false [], ?_, key, ?_⟩
  · intro file ho hr
    unfold readLine
    simp only [ho, Bool.not_true, Bool.false_eq_true, if_false, readLineLoop_stripCR, hr]
  · intro fs fs2 path s2 h h1 h2
    unfold getDependencies openFile
    rw [h1, h2]
    exact key s2 h

/-- C6, at the file with the header and the line `u r`: carriage returns put
before the line feeds and inside the tokens change nothing. -/
theorem carriage_returns_ignored_witness :
    getDependenciesFrom
        { ignoreCurrentPath := false, ignoreDependencyFileHeader := false, ignorePull := false,
          cleanRepo := false, verboseLog := false }
        { is_open := true, content := "#DEPEN\rDENCIES\r\nu\r r\r\n".toList,
          rest := "#DEPEN\rDENCIES\r\nu\r r\r\n".toList } []
      = getDependenciesFrom
        { ignoreCurrentPath := false, ignoreDependencyFileHeader := false, ignorePull := false,
          cleanRepo := false, verboseLog := false }
        { is_open := true, content := "#DEPENDENCIES\nu r\n".toList,
          rest := "#DEPENDENCIES\nu r\n".toList } [] :=
  (carriage_returns_ignored _ "#DEPENDENCIES\nu r\n".toList []).2.2.1
    "#DEPEN\rDENCIES\r\nu\r r\r\n".toList (by decide)

theorem printVerbose_fs (g : GlobalParameters) (w : World) (s : Str) :
    (printVerbose g w s).fs = w.fs ∧ (printVerbose g w s).calls = w.calls := by
  unfold printVerbose print
  split <;> exact ⟨rfl, rfl⟩

theorem execute_effect (g : GlobalParameters) (sh : Shell) (command : Str) (cargs : List Str)
    (w : World) :
    (execute g sh command cargs w).1 = (sh (commandLine command cargs) w.fs).1
    ∧ (execute g sh command cargs w).2.fs = (sh (commandLine command cargs) w.fs).2
    ∧ (execute g sh command cargs w).2.calls = w.calls ++ [commandLine command cargs] := by
  unfold execute
  simp only [(printVerbose_fs g w _).1, (printVerbose_fs g w _).2, and_self]

theorem validateGit_effect (g : GlobalParameters) (sh : Shell) (w : World) :
    (validateGit g sh w).1 = decide ((sh versionCommand w.fs).1 = 0)
    ∧ (validateGit g sh w).2.fs = (sh versionCommand w.fs).2
    ∧ (validateGit g sh w).2.calls = w.calls ++ [versionCommand] := by
  have h := execute_effect g sh "git".toList ["--version".toList]
    (printVerbose g w "Determining git version...\n".toList)
  rw [(printVerbose_fs g w _).1, (printVerbose_fs g w _).2] at h
  unfold validateGit
  dsimp only
  rw [h.1]
  split
  · rename_i hne
    exact ⟨(decide_eq_false hne).symm, h.2.1, h.2.2⟩
  · rename_i hne
    exact ⟨(decide_eq_true (not_not.1 hne)).symm, h.2.1, h.2.2⟩

theorem findStep_fst (g : GlobalParameters) (fs : FileSystem) (filename : Str)
    (acc acc2 : List Str × List Str) (p : Str) (h : acc.1 = acc2.1) :
    (findStep g fs filename acc p).1 = (findStep g fs filename acc2 p).1 := by
  unfold findStep
  by_cases hd : (!fs.is_directory p) = true
  · rw [if_pos hd, if_pos hd]; exact h
  · rw [if_neg hd, if_neg hd]
    dsimp only
    by_cases hr : (!is_regular_file fs (p ++ "/".toList ++ filename)) = true
    · rw [if_pos hr, if_pos hr]; exact h
    · rw [if_neg hr, if_neg hr]
      generalize (if g.verboseLog = true then _ else acc.2) = o1
      generalize (if g.verboseLog = true then _ else acc2.2) = o2
      rw [(validateDependency_out g (openFile fs (p ++ "/".toList ++ filename)) o1 o2).1]
      by_cases hv : (validateDependency g (openFile fs (p ++ "/".toList ++ filename)) o2).1 = true
      · rw [if_pos hv, if_pos hv, h]
      · rw [if_neg hv, if_neg hv]; exact h

theorem foldl_findStep_fst (g : GlobalParameters) (fs : FileSystem) (filename : Str)
    (ps : List Str) :
    ∀ acc acc2 : List Str × List Str, acc.1 = acc2.1 →
      (ps.foldl (findStep g fs filename) acc).1 = (ps.foldl (findStep g fs filename) acc2).1 := by
  induction ps with
  | nil => intro acc acc2 h; exact h
  | cons p ps ih =>
    intro acc acc2 h
    rw [List.foldl_cons, List.foldl_cons]
    exact ih _ _ (findStep_fst g fs filename acc acc2 p h)

theorem findDependencyFiles_view (g : GlobalParameters) (libdir filename : Str) (w w2 : World)
    (h : w.fs = w2.fs) :
    (findDependencyFiles g libdir filename w).1 = (findDependencyFiles g libdir filename w2).1
    ∧ (findDependencyFiles g libdir filename w).2.fs
        = (findDependencyFiles g libdir filename w2).2.fs
    ∧ (findDependencyFiles g libdir filename w).2.calls = w.calls := by
  unfold findDependencyFiles
  rw [h]
  split
  · exact ⟨rfl, by rw [(printVerbose_fs g w _).1, (printVerbose_fs g w2 _).1, h],
      (printVerbose_fs g w _).2⟩
  · exact ⟨foldl_findStep_fst g _ filename _ _ _ rfl, rfl, rfl⟩

theorem addCurrentPath_view (g : GlobalParameters) (depfname : Str) (list : List Str)
    (w w2 : World) (h : w.fs = w2.fs) :
    (addCurrentPath g depfname list w).1 = (addCurrentPath g depfname list w2).1
    ∧ (addCurrentPath g depfname list w).2.fs = w.fs
    ∧ (addCurrentPath g depfname list w).2.calls = w.calls := by
  unfold addCurrentPath
  split
  · dsimp only
    rw [(printVerbose_fs g w _).1, (printVerbose_fs g w2 _).1, h,
      (validateDependency_out g _ _ (printVerbose g w2
        "Searching for current path dependencies...\n".toList).out).1]
    exact ⟨rfl, rfl, (printVerbose_fs g w _).2⟩
  · exact ⟨rfl, rfl, rfl⟩

theorem mergeFiles_fst (g : GlobalParameters) (fs : FileSystem) (ps : List Str)
    (dpList : List Dependency) (out out2 : List Str) :
    (mergeFiles g fs ps dpList out).1 = (mergeFiles g fs ps dpList out2).1 := by
  rw [mergeFiles_eq_foldl, mergeFiles_eq_foldl]

theorem populateDependencyList_congr (g : GlobalParameters) (dpList : List Dependency)
    (libdir depfname : Str) (fs : FileSystem) (out out2 calls calls2 : List Str) :
    (populateDependencyList g dpList libdir depfname { fs := fs, out := out, calls := calls }).1
      = (populateDependencyList g dpList libdir depfname
          { fs := fs, out := out2, calls := calls2 }).1
    ∧ (populateDependencyList g dpList libdir depfname
          { fs := fs, out := out, calls := calls }).2.1
      = (populateDependencyList g dpList libdir depfname
          { fs := fs, out := out2, calls := calls2 }).2.1
    ∧ (populateDependencyList g dpList libdir depfname
          { fs := fs, out := out, calls := calls }).2.2.fs
      = (populateDependencyList g dpList libdir depfname
          { fs := fs, out := out2, calls := calls2 }).2.2.fs
    ∧ (populateDependencyList g dpList libdir depfname
          { fs := fs, out := out, calls := calls }).2.2.calls = calls := by
  unfold populateDependencyList
  dsimp only
  by_cases hr : is_regular_file fs libdir = true
  · rw [if_pos hr, if_pos hr]
    exact ⟨rfl, rfl, by rw [(printVerbose_fs g _ _).1, (printVerbose_fs g _ _).1],
      (printVerbose_fs g _ _).2⟩
  · rw [if_neg hr, if_neg hr]
    have hf := findDependencyFiles_view g ((ensureDirectory fs libdir).canonical libdir)
      depfname { fs := ensureDirectory fs libdir, out := out, calls := calls }
      { fs := ensureDirectory fs libdir, out := out2, calls := calls2 } rfl
    generalize findDependencyFiles g ((ensureDirectory fs libdir).canonical libdir)
      depfname { fs := ensureDirectory fs libdir, out := out, calls := calls } = F at hf ⊢
    generalize findDependencyFiles g ((ensureDirectory fs libdir).canonical libdir)
      depfname { fs := ensureDirectory fs libdir, out := out2, calls := calls2 } = F2 at hf ⊢
    have ha := addCurrentPath_view g depfname F.1 F.2 F2.2 hf.2.1
    have ha2 := addCurrentPath_view g depfname F2.1 F2.2 F2.2 rfl
    have e1 : (addCurrentPath g depfname F.1 F.2).1 = (addCurrentPath g depfname F2.1 F2.2).1 := by
      rw [ha.1, hf.1]
    have hfs : (addCurrentPath g depfname F.1 F.2).2.fs
        = (addCurrentPath g depfname F2.1 F2.2).2.fs := by
      rw [ha.2.1, ha2.2.1, hf.2.1]
    have hc : (addCurrentPath g depfname F.1 F.2).2.calls = calls := by
      rw [ha.2.2, hf.2.2]
    generalize addCurrentPath g depfname F.1 F.2 = A at e1 hfs hc ⊢
    generalize addCurrentPath g depfname F2.1 F2.2 = A2 at e1 hfs ⊢
    have hm := mergeFiles_fst g A2.2.fs A2.1 dpList A.2.out A2.2.out
    rw [hfs, e1, hm]
    by_cases hl : (mergeFiles g A2.2.fs A2.1 dpList A2.2.out).1.length ≠ 0
    · rw [if_pos hl, if_pos hl]
      exact ⟨rfl, rfl, rfl, hc⟩
    · rw [if_neg hl, if_neg hl]
      exact ⟨rfl, rfl, rfl, hc⟩

theorem populateDependencyList_view (g : GlobalParameters) (libdir depfname : Str) (w : World) :
    (populateDependencyList g [] libdir depfname w).2.1 = recordsOf g libdir depfname w.fs
    ∧ (populateDependencyList g [] libdir depfname w).2.2.fs = preparedFs g libdir depfname w.fs
    ∧ (populateDependencyList g [] libdir depfname w).2.2.calls = w.calls := by
  have h := populateDependencyList_congr g [] libdir depfname w.fs w.out [] w.calls []
  exact ⟨h.2.1, h.2.2.1, h.2.2.2⟩

theorem populateDependencyList_verdict (g : GlobalParameters) (libdir depfname : Str)
    (w : World) :
    (populateDependencyList g [] libdir depfname w).1
      = decide ((populateDependencyList g [] libdir depfname w).2.1 ≠ []) := by
  unfold populateDependencyList
  dsimp only
  by_cases hr : is_regular_file w.fs libdir = true
  · rw [if_pos hr]; simp
  · rw [if_neg hr]
    generalize mergeFiles g _ _ [] _ = M
    by_cases hl : M.1.length ≠ 0
    · rw [if_pos hl]
      have : M.1 ≠ [] := fun e => hl (by rw [e]; rfl)
      exact (decide_eq_true this).symm
    · rw [if_neg hl]
      have : ¬ (M.1 ≠ []) := fun e => hl (fun h0 => e (List.length_eq_zero.1 h0))
      exact (decide_eq_false this).symm

theorem syncRecords_nil (g : GlobalParameters) (sh : Shell) (recursing : Bool) (dir : Str)
    (w : World) (newLibrary : Bool) :
    syncRecords g sh recursing dir [] w newLibrary = .ok (w, newLibrary) := rfl

theorem syncRecords_undefined (g : GlobalParameters) (sh : Shell) (recursing : Bool) (dir : Str)
    (dep : Dependency) (deps : List Dependency) (w : World) (newLibrary : Bool)
    (hn : getLibraryName dep = none) :
    syncRecords g sh recursing dir (dep :: deps) w newLibrary = .error .undefinedBehaviour := by
  rw [syncRecords, hn]

theorem syncRecords_present (g : GlobalParameters) (sh : Shell) (recursing : Bool) (dir : Str)
    (dep : Dependency) (deps : List Dependency) (w : World) (newLibrary : Bool) (libname : Str)
    (hn : getLibraryName dep = some libname)
    (hd : w.fs.is_directory (libraryPath dir libname) = true) :
    ∃ w1 : World,
      syncRecords g sh recursing dir (dep :: deps) w newLibrary
        = syncRecords g sh recursing dir deps w1 newLibrary
      ∧ w1.fs = afterPresent g sh recursing (libraryPath dir libname) w.fs
      ∧ w1.calls = w.calls ++ presentRequests g recursing (libraryPath dir libname) := by
  rw [syncRecords, hn]
  dsimp only
  have hd2 : w.fs.is_directory (make_preferred (dir ++ "/".toList ++ libname)) = true := hd
  rw [if_pos hd2]
  unfold afterPresent presentRequests
  by_cases hp : (!g.ignorePull && !recursing) = true
  · rw [if_pos hp, if_pos hp, if_pos hp]
    refine ⟨_, rfl, ?_, ?_⟩
    · rw [(execute_effect g sh _ _ _).2.1, (printVerbose_fs g _ _).1]
      by_cases hc : g.cleanRepo = true
      · rw [if_pos hc, if_pos hc, (execute_effect g sh _ _ _).2.1, (printVerbose_fs g _ _).1]
        rfl
      · rw [if_neg hc, if_neg hc]
        rfl
    · rw [(execute_effect g sh _ _ _).2.2, (printVerbose_fs g _ _).2]
      by_cases hc : g.cleanRepo = true
      · rw [if_pos hc, if_pos hc, (execute_effect g sh _ _ _).2.2, (printVerbose_fs g _ _).2,
          List.append_assoc]
        rfl
      · rw [if_neg hc, if_neg hc]
        rfl
  · rw [if_neg hp, if_neg hp, if_neg hp]
    exact ⟨w, rfl, rfl, (List.append_nil _).symm⟩

theorem syncRecords_absent (g : GlobalParameters) (sh : Shell) (recursing : Bool) (dir : Str)
    (dep : Dependency) (deps : List Dependency) (w : World) (newLibrary : Bool) (libname : Str)
    (hn : getLibraryName dep = some libname)
    (hd : w.fs.is_directory (libraryPath dir libname) = false) :
    ∃ w1 : World,
      syncRecords g sh recursing dir (dep :: deps) w newLibrary
        = syncRecords g sh recursing dir deps w1 true
      ∧ w1.fs = (sh (cloneCommand dep (libraryPath dir libname)) w.fs).2
      ∧ w1.calls = w.calls ++ [cloneCommand dep (libraryPath dir libname)] := by
  rw [syncRecords, hn]
  dsimp only
  have hd2 : ¬ (w.fs.is_directory (make_preferred (dir ++ "/".toList ++ libname)) = true) := by
    intro h
    have h2 : w.fs.is_directory (libraryPath dir libname) = true := h
    rw [hd] at h2
    exact Bool.false_ne_true h2
  rw [if_neg hd2]
  refine ⟨_, rfl, ?_, ?_⟩
  · rw [(execute_effect g sh _ _ _).2.1, (printVerbose_fs g _ _).1]
    rfl
  · rw [(execute_effect g sh _ _ _).2.2, (printVerbose_fs g _ _).2]
    rfl

theorem commandLine_git_cons (a : Str) (args : List Str) :
    ∃ t, commandLine "git".toList (a :: args) = "git ".toList ++ a ++ t := by
  have key : ∀ (args : List Str) (acc : Str),
      ∃ t, List.foldl (fun cli arg => cli ++ (" ".toList ++ arg)) acc args = acc ++ t := by
    intro args
    induction args with
    | nil => intro acc; exact ⟨[], (List.append_nil _).symm⟩
    | cons b bs ih =>
      intro acc
      obtain ⟨t, ht⟩ := ih (acc ++ (" ".toList ++ b))
      exact ⟨(" ".toList ++ b) ++ t, by rw [List.foldl_cons, ht, List.append_assoc]⟩
  obtain ⟨t, ht⟩ := key args ("git".toList ++ (" ".toList ++ a))
  refine ⟨t, ?_⟩
  unfold commandLine
  rw [List.foldl_cons, ht]
  simp

theorem cloneCommand_ne_pull (dep : Dependency) (libpath p : Str) :
    cloneCommand dep libpath ≠ pullCommand p ∧ cloneCommand dep libpath ≠ resetCommand p := by
  obtain ⟨t1, h1⟩ := commandLine_git_cons "clone".toList
    ["-b".toList, dep.branch, "--recurse-submodules".toList, dep.url, libpath]
  obtain ⟨t2, h2⟩ := commandLine_git_cons "-C".toList [p, "pull".toList]
  obtain ⟨t3, h3⟩ := commandLine_git_cons "-C".toList
    [p, "reset".toList, "--hard".toList, "HEAD".toList]
  have hc : cloneCommand dep libpath = "git ".toList ++ "clone".toList ++ t1 := h1
  have hp : pullCommand p = "git ".toList ++ "-C".toList ++ t2 := h2
  have hr : resetCommand p = "git ".toList ++ "-C".toList ++ t3 := h3
  rw [hc, hp, hr]
  constructor
  · intro h
    have := congrArg (fun l => l.get? 4) h
    revert this
    simp
  · intro h
    have := congrArg (fun l => l.get? 4) h
    revert this
    simp

theorem updatePass_eq (g : GlobalParameters) (sh : Shell) (libdir depfname : Str)
    (recursing : Bool) (w : World) :
    updatePass g sh libdir depfname recursing w
      = if recordsOf g libdir depfname w.fs ≠ [] then
          syncRecords g sh recursing ((preparedFs g libdir depfname w.fs).canonical libdir)
            (recordsOf g libdir depfname w.fs)
            (populateDependencyList g [] libdir depfname w).2.2 false
        else .ok ((populateDependencyList g [] libdir depfname w).2.2, false) := by
  unfold updatePass
  dsimp only
  have hv := populateDependencyList_verdict g libdir depfname w
  have hw := populateDependencyList_view g libdir depfname w
  rw [hv, hw.1, hw.2.1]
  by_cases h : recordsOf g libdir depfname w.fs ≠ []
  · rw [if_pos h, if_pos (decide_eq_true h)]
  · rw [if_neg h, if_neg (by rw [decide_eq_false h]; exact Bool.false_ne_true)]

theorem updateDependencies_eq (g : GlobalParameters) (sh : Shell) (libdir depfname : Str)
    (fuel : Nat) (w : World) (hgit : (validateGit g sh w).1 = true) :
    updateDependencies g sh libdir depfname fuel w
      = match updateLoop g sh libdir depfname fuel false (validateGit g sh w).2 0 with
        | .error e => .error e
        | .ok r => .ok (false, r.1, r.2) := by
  unfold updateDependencies
  dsimp only
  rw [hgit]
  rfl

theorem mergeFiles_nil_of_invalid (g : GlobalParameters) (fs : FileSystem)
    (hnone : ∀ p out, (validateDependency g (openFile fs p) out).1 = false)
    (ps : List Str) (out : List Str) :
    (mergeFiles g fs ps [] out).1 = [] := by
  rw [mergeFiles_eq_foldl]
  have : ∀ p, (getDependencies g fs p []).1 = [] := by
    intro p
    unfold getDependencies getDependenciesFrom
    simp only [hnone p [], Bool.not_false, if_true]
  induction ps with
  | nil => rfl
  | cons p ps ih =>
    rw [List.map_cons, List.foldl_cons, this p]
    exact ih

theorem recordsOf_nil_of_invalid (g : GlobalParameters) (libdir depfname : Str)
    (fs : FileSystem)
    (hnone : ∀ p out, (validateDependency g (openFile fs p) out).1 = false) :
    recordsOf g libdir depfname fs = [] := by
  unfold recordsOf populateDependencyList
  dsimp only
  by_cases hr : is_regular_file fs libdir = true
  · rw [if_pos hr]
  · rw [if_neg hr]
    have hfs : (addCurrentPath g depfname
        (findDependencyFiles g ((ensureDirectory fs libdir).canonical libdir) depfname
          { fs := ensureDirectory fs libdir, out := [], calls := [] }).1
        (findDependencyFiles g ((ensureDirectory fs libdir).canonical libdir) depfname
          { fs := ensureDirectory fs libdir, out := [], calls := [] }).2).2.fs
        = preparedFs g libdir depfname fs := by
      unfold preparedFs populateDependencyList
      dsimp only
      rw [if_neg hr]
      split <;> rfl
    have hread : (preparedFs g libdir depfname fs).read = fs.read := by
      unfold preparedFs populateDependencyList
      dsimp only
      rw [if_neg hr]
      have h1 : ∀ (f : FileSystem) (p : Str), (ensureDirectory f p).read = f.read := by
        intro f p
        unfold ensureDirectory create_directories
        split <;> rfl
      have h2 : ∀ (d : Str) (w : World),
          (findDependencyFiles g d depfname w).2.fs.read = w.fs.read := by
        intro d w
        unfold findDependencyFiles
        split
        · rw [(printVerbose_fs g _ _).1]
        · exact h1 _ _
      have h3 : ∀ (l : List Str) (w : World),
          (addCurrentPath g depfname l w).2.fs = w.fs :=
        fun l w => (addCurrentPath_view g depfname l w w rfl).2.1
      split
      · rw [h3, h2]; exact h1 _ _
      · show (print _ _).fs.read = _
        unfold print
        dsimp only
        rw [h3, h2]; exact h1 _ _
    have hnone2 : ∀ p out,
        (validateDependency g (openFile (preparedFs g libdir depfname fs) p) out).1 = false := by
      intro p out
      have : openFile (preparedFs g libdir depfname fs) p = openFile fs p := by
        unfold openFile
        rw [hread]
      rw [this]
      exact hnone p out
    rw [hfs]
    have hm := mergeFiles_nil_of_invalid g (preparedFs g libdir depfname fs) hnone2
    generalize (addCurrentPath g depfname _ _) = A
    have := hm A.1 A.2.out
    split <;> exact this

theorem populateDependencyList_reports (g : GlobalParameters) (libdir depfname : Str)
    (w : World) (hroot : is_regular_file w.fs libdir = false)
    (hempty : (populateDependencyList g [] libdir depfname w).2.1 = []) :
    noDependenciesMessage ∈ (populateDependencyList g [] libdir depfname w).2.2.out := by
  unfold populateDependencyList at hempty ⊢
  dsimp only at hempty ⊢
  have hr : ¬ (is_regular_file w.fs libdir = true) := by rw [hroot]; exact Bool.false_ne_true
  rw [if_neg hr] at hempty ⊢
  generalize mergeFiles g _ _ [] _ = M at hempty ⊢
  by_cases hl : M.1.length ≠ 0
  · rw [if_pos hl] at hempty
    exact absurd (by rw [show M.1 = [] from hempty]; rfl) hl
  · rw [if_neg hl]
    show noDependenciesMessage ∈ (print _ noDependenciesMessage).out
    unfold print
    exact List.mem_append_right _ (List.mem_singleton_self _)

/-- C10, as amended: once the version check has succeeded, if the library root
is not a regular file and no declaration file is valid anywhere, the set
`populateDependencyList` yields is empty; and whenever that set is empty the
run is a single pass that reports `No dependencies found!` and whose only
external call is the version check: no clone, pull or reset is requested. -/
theorem empty_set_single_pass (g : GlobalParameters) (sh : Shell) (libdir depfname : Str)
    (w : World) (fuel : Nat) (hfuel : 1 ≤ fuel)
    (hgit : (validateGit g sh w).1 = true)
    (hroot : is_regular_file (validateGit g sh w).2.fs libdir = false) :
    ((∀ p out, (validateDependency g (openFile (validateGit g sh w).2.fs p) out).1 = false) →
      recordsOf g libdir depfname (validateGit g sh w).2.fs = [])
    ∧ (recordsOf g libdir depfname (validateGit g sh w).2.fs = [] →
      ∃ w1 : World, updateDependencies g sh libdir depfname fuel w = .ok (false, w1, 1)
        ∧ w1.calls = w.calls ++ [versionCommand]
        ∧ noDependenciesMessage ∈ w1.out) := by
  refine ⟨recordsOf_nil_of_invalid g libdir depfname _, ?_⟩
  intro hrec
  obtain ⟨k, rfl⟩ : ∃ k, fuel = k + 1 := ⟨fuel - 1, by omega⟩
  have hw := populateDependencyList_view g libdir depfname (validateGit g sh w).2
  refine ⟨(populateDependencyList g [] libdir depfname (validateGit g sh w).2).2.2, ?_, ?_, ?_⟩
  · rw [updateDependencies_eq g sh libdir depfname _ w hgit, updateLoop, updatePass_eq,
      if_neg (by rw [hrec]; exact fun h => h rfl)]
    rfl
  · rw [hw.2.2, (validateGit_effect g sh w).2.2]
  · exact populateDependencyList_reports g libdir depfname _ hroot (by rw [hw.1]; exact hrec)

/-- C10, at the project without declaration file and with an empty library
root: one pass, the version check as only call, and the report. -/
theorem empty_set_single_pass_witness :
    ∃ w1 : World,
      updateDependencies defaultFlags idleShell "/lib".toList "dependency.txt".toList 1
        (freshWorld emptyFs) = .ok (false, w1, 1)
      ∧ w1.calls = ["git --version".toList]
      ∧ noDependenciesMessage ∈ w1.out := by
  obtain ⟨w1, h1, h2, h3⟩ :=
    (empty_set_single_pass defaultFlags idleShell "/lib".toList "dependency.txt".toList
      (freshWorld emptyFs) 1 (Nat.le_refl 1) (by decide) (by decide)).2 (by decide)
  exact ⟨w1, h1, by rw [h2]; rfl, h3⟩

/-- C10 as stated fails: with no declaration file anywhere the run still makes
one external call, the version check; and when the library root is a regular
file nothing is reported. -/
theorem empty_set_counterexample :
    (∀ p out, (validateDependency defaultFlags (openFile emptyFs p) out).1 = false)
    ∧ (∃ w1 : World,
        updateDependencies defaultFlags idleShell "/lib".toList "dependency.txt".toList 1
          (freshWorld emptyFs) = .ok (false, w1, 1)
        ∧ w1.calls = ["git --version".toList])
    ∧ (∀ p out, (validateDependency defaultFlags (openFile fileRootFs p) out).1 = false)
    ∧ recordsOf defaultFlags "/lib".toList "dependency.txt".toList fileRootFs = []
    ∧ (∃ w2 : World,
        updateDependencies defaultFlags idleShell "/lib".toList "dependency.txt".toList 1
          (freshWorld fileRootFs) = .ok (false, w2, 1)
        ∧ w2.out = [] ∧ noDependenciesMessage ∉ w2.out) := by
  refine ⟨?_, ⟨_, rfl, by decide⟩, ?_, by decide, ⟨_, rfl, by decide, by decide⟩⟩
  · intro p out
    rfl
  · intro p out
    rw [(validateDependency_out defaultFlags _ out []).1]
    by_cases hp : p = "/lib".toList
    · subst hp
      decide
    · have : openFile fileRootFs p = { is_open := false, content := [], rest := [] } := by
        unfold openFile fileRootFs sampleFs
        have hb : (p == "/lib".toList) = false := by
          rw [beq_eq_false_iff_ne]; exact hp
        have : (List.lookup p [("/lib".toList, "text".toList)]) = none := by
          simp only [List.lookup, hb]
        dsimp only
        rw [this]
      rw [this]
      rfl

theorem execute_status_free (g : GlobalParameters) (sh sh2 : Shell)
    (h : ∀ cli fs, (sh cli fs).2 = (sh2 cli fs).2) (command : Str) (cargs : List Str)
    (w : World) :
    (execute g sh command cargs w).2 = (execute g sh2 command cargs w).2 := by
  unfold execute
  dsimp only
  rw [h]

theorem syncRecords_status_free (g : GlobalParameters) (sh sh2 : Shell)
    (h : ∀ cli fs, (sh cli fs).2 = (sh2 cli fs).2) (recursing : Bool) (dir : Str)
    (deps : List Dependency) :
    ∀ (w : World) (newLibrary : Bool),
      syncRecords g sh recursing dir deps w newLibrary
        = syncRecords g sh2 recursing dir deps w newLibrary := by
  induction deps with
  | nil => intro w newLibrary; rfl
  | cons dep deps ih =>
    intro w newLibrary
    rw [syncRecords, syncRecords]
    cases hn : getLibraryName dep with
    | none => rfl
    | some n =>
      dsimp only
      simp only [execute_status_free g sh sh2 h, ih]

theorem syncRecords_completes (g : GlobalParameters) (sh : Shell) (recursing : Bool)
    (dir : Str) (deps : List Dependency) :
    ∀ (w : World) (newLibrary : Bool),
      (∀ dep ∈ deps, getLibraryName dep ≠ none) →
      ∃ (w1 : World) (groups : List (List Str × Bool)),
        syncRecords g sh recursing dir deps w newLibrary
          = .ok (w1, newLibrary || groups.any (fun grp => grp.2))
        ∧ w1.calls = w.calls ++ (groups.map (fun grp => grp.1)).flatten
        ∧ List.Forall₂ (requestsFor g recursing dir) deps groups := by
  induction deps with
  | nil =>
    intro w newLibrary _
    exact ⟨w, [], by simp [syncRecords_nil], by simp, List.Forall₂.nil⟩
  | cons dep deps ih =>
    intro w newLibrary hnames
    have hrest : ∀ d ∈ deps, getLibraryName d ≠ none :=
      fun d hd => hnames d (List.mem_cons_of_mem dep hd)
    cases hn : getLibraryName dep with
    | none => exact absurd hn (hnames dep (List.mem_cons_self dep deps))
    | some n =>
      cases hd : w.fs.is_directory (libraryPath dir n) with
      | true =>
        obtain ⟨w1, e1, _, hc1⟩ :=
          syncRecords_present g sh recursing dir dep deps w newLibrary n hn hd
        obtain ⟨w2, groups, e2, hc2, hf⟩ := ih w1 newLibrary hrest
        refine ⟨w2, (presentRequests g recursing (libraryPath dir n), false) :: groups,
          ?_, ?_, List.Forall₂.cons ⟨n, hn, Or.inr rfl⟩ hf⟩
        · rw [e1, e2]
          simp
        · rw [hc2, hc1, List.map_cons, List.flatten_cons, List.append_assoc]
      | false =>
        obtain ⟨w1, e1, _, hc1⟩ :=
          syncRecords_absent g sh recursing dir dep deps w newLibrary n hn hd
        obtain ⟨w2, groups, e2, hc2, hf⟩ := ih w1 true hrest
        refine ⟨w2, ([cloneCommand dep (libraryPath dir n)], true) :: groups,
          ?_, ?_, List.Forall₂.cons ⟨n, hn, Or.inl rfl⟩ hf⟩
        · rw [e1, e2]
          simp
        · rw [hc2, hc1, List.map_cons, List.flatten_cons, List.append_assoc]

/-- C9, as amended: whatever statuses the synchronizer returns, one execution
of the loop body over records with defined library names runs to its end and
hands to the synchronizer, record by record in the order of the set, either
one clone request or the requests of a library in place, so that a failed
request is not repeated within the pass and does not keep the pass from the
remaining records; `newLibrary` ends up set exactly when it was set before or
a clone request was issued; the statuses are not used, that is two
synchronizers with the same effect on the file system give the same pass. -/
theorem failed_request_pass_continues (g : GlobalParameters) (sh : Shell) (recursing : Bool)
    (dir : Str) (deps : List Dependency) (w : World) (newLibrary : Bool)
    (hnames : ∀ dep ∈ deps, getLibraryName dep ≠ none) :
    (∃ (w1 : World) (groups : List (List Str × Bool)),
      syncRecords g sh recursing dir deps w newLibrary
        = .ok (w1, newLibrary || groups.any (fun grp => grp.2))
      ∧ w1.calls = w.calls ++ (groups.map (fun grp => grp.1)).flatten
      ∧ List.Forall₂ (requestsFor g recursing dir) deps groups)
    ∧ (∀ sh2 : Shell, (∀ cli fs, (sh cli fs).2 = (sh2 cli fs).2) →
      syncRecords g sh recursing dir deps w newLibrary
        = syncRecords g sh2 recursing dir deps w newLibrary) :=
  ⟨syncRecords_completes g sh recursing dir deps w newLibrary hnames,
   fun sh2 h => syncRecords_status_free g sh sh2 h recursing dir deps w newLibrary⟩

/-- C9, at the project whose one library is missing, with a synchronizer that
fails the clone: the pass completes after the one clone request. -/
theorem failed_request_pass_continues_witness :
    ∃ (w1 : World) (groups : List (List Str × Bool)),
      syncRecords defaultFlags failingShell false "/lib".toList
        [{ url := "https://x/y".toList, branch := "main".toList }] (freshWorld absentFs) false
        = .ok (w1, false || groups.any (fun grp => grp.2))
      ∧ w1.calls = (freshWorld absentFs).calls ++ (groups.map (fun grp => grp.1)).flatten
      ∧ List.Forall₂ (requestsFor defaultFlags false "/lib".toList)
          [{ url := "https://x/y".toList, branch := "main".toList }] groups :=
  (failed_request_pass_continues defaultFlags failingShell false "/lib".toList
    [{ url := "https://x/y".toList, branch := "main".toList }] (freshWorld absentFs) false
    (by
      intro dep hdep
      rw [List.mem_singleton.1 hdep]
      decide)).1

theorem failing_pass (recursing : Bool) (w : World) (h : w.fs = absentFs) :
    ∃ w1 : World,
      updatePass defaultFlags failingShell "/lib".toList "dependency.txt".toList recursing w
        = .ok (w1, true)
      ∧ w1.fs = absentFs
      ∧ w1.calls = w.calls ++ ["git clone -b main --recurse-submodules https://x/y /lib/y-main".toList] := by
  have hrec : recordsOf defaultFlags "/lib".toList "dependency.txt".toList absentFs
      = [{ url := "https://x/y".toList, branch := "main".toList }] := by decide
  have hprep : preparedFs defaultFlags "/lib".toList "dependency.txt".toList absentFs
      = absentFs := rfl
  have hw := populateDependencyList_view defaultFlags "/lib".toList "dependency.txt".toList w
  rw [h, hprep] at hw
  obtain ⟨w1, e1, hfs, hcalls⟩ := syncRecords_absent defaultFlags failingShell recursing
    "/lib".toList { url := "https://x/y".toList, branch := "main".toList } []
    (populateDependencyList defaultFlags [] "/lib".toList "dependency.txt".toList w).2.2 false
    "y-main".toList (by decide) (by rw [hw.2.1]; decide)
  refine ⟨w1, ?_, ?_, ?_⟩
  · rw [updatePass_eq, h, hrec, hprep, if_pos (List.cons_ne_nil _ _)]
    exact e1
  · rw [hfs, hw.2.1]
    rfl
  · rw [hcalls, hw.2.2]
    rfl

theorem failing_loop :
    ∀ (fuel : Nat) (recursing : Bool) (w : World) (n : Nat), w.fs = absentFs →
      updateLoop defaultFlags failingShell "/lib".toList "dependency.txt".toList fuel
        recursing w n = .error .outOfFuel := by
  intro fuel
  induction fuel with
  | zero => intro recursing w n _; rfl
  | succ k ih =>
    intro recursing w n h
    obtain ⟨w1, e1, hfs, _⟩ := failing_pass recursing w h
    rw [updateLoop, e1]
    exact ih true w1 (n + 1) hfs

/-- C9 as stated fails: when the clone of the one record fails and leaves no
directory, the first pass and the second pass each request that clone, and the
run ends for no number of executions of the loop body. -/
theorem failed_request_counterexample :
    (∃ w1 w2 : World,
      updatePass defaultFlags failingShell "/lib".toList "dependency.txt".toList false
        (validateGit defaultFlags failingShell (freshWorld absentFs)).2 = .ok (w1, true)
      ∧ updatePass defaultFlags failingShell "/lib".toList "dependency.txt".toList true w1
        = .ok (w2, true)
      ∧ w2.calls = ["git --version".toList,
          "git clone -b main --recurse-submodules https://x/y /lib/y-main".toList,
          "git clone -b main --recurse-submodules https://x/y /lib/y-main".toList]
      ∧ w2.fs.is_directory "/lib/y-main".toList = false)
    ∧ (failingShell
        "git clone -b main --recurse-submodules https://x/y /lib/y-main".toList absentFs).1 = 1
    ∧ ∀ fuel, updateDependencies defaultFlags failingShell "/lib".toList
        "dependency.txt".toList fuel (freshWorld absentFs) = .error .outOfFuel := by
  have h0 : (validateGit defaultFlags failingShell (freshWorld absentFs)).2.fs = absentFs := rfl
  obtain ⟨w1, e1, hfs1, hc1⟩ := failing_pass false _ h0
  obtain ⟨w2, e2, hfs2, hc2⟩ := failing_pass true w1 hfs1
  refine ⟨⟨w1, w2, e1, e2, ?_, ?_⟩, by decide, ?_⟩
  · rw [hc2, hc1]
    decide
  · rw [hfs2]
    decide
  · intro fuel
    rw [updateDependencies_eq _ _ _ _ _ _ (by decide), failing_loop fuel false _ 0 h0]

theorem nested_sample_run :
    ∃ w1 : World,
      updateDependencies defaultFlags nestedShell "/lib".toList "dependency.txt".toList 3
        (freshWorld stage0) = .ok (false, w1, 3)
      ∧ w1.calls = ["git --version".toList,
          "git clone -b main --recurse-submodules https://x/a /lib/a-main".toList,
          "git clone -b main --recurse-submodules https://x/b /lib/b-main".toList] :=
  ⟨_, rfl, by decide⟩

theorem isBlank_iff (c : Char) : isBlank c = true ↔ (c = ' ' ∨ c = '\t') := by
  unfold isBlank
  simp [Bool.or_eq_true]

theorem flatten_filter_nonempty (L : List Str) :
    (L.filter (fun t => !t.isEmpty)).flatten = L.flatten := by
  induction L with
  | nil => rfl
  | cons t ts ih =>
    cases t with
    | nil => simpa using ih
    | cons a as =>
      rw [List.filter_cons_of_pos (by rfl), List.flatten_cons, List.flatten_cons, ih]

theorem splitOnP_blank (c : Char) (cs : Str) (h : isBlank c = true) :
    (c :: cs).splitOnP isBlank = [] :: cs.splitOnP isBlank := by
  rw [List.splitOnP_cons, if_pos h]

theorem splitOnP_other (c : Char) (cs : Str) (h : isBlank c = false) :
    ∃ p ps, cs.splitOnP isBlank = p :: ps
      ∧ (c :: cs).splitOnP isBlank = (c :: p) :: ps := by
  cases hs : cs.splitOnP isBlank with
  | nil => exact absurd hs (List.splitOnP_ne_nil _ _)
  | cons p ps =>
    refine ⟨p, ps, rfl, ?_⟩
    rw [List.splitOnP_cons, if_neg (by rw [h]; exact Bool.false_ne_true), hs]
    rfl

theorem tokens_blank (c : Char) (cs : Str) (h : isBlank c = true) :
    tokens (c :: cs) = tokens cs := by
  unfold tokens
  rw [splitOnP_blank c cs h]
  rfl

theorem scanLine_phase1 (cs : Str) :
    ∀ (url branch : Str), scanLine cs 1 url branch = (url, branch ++ (tokens cs).flatten) := by
  induction cs with
  | nil => intro url branch; simp [scanLine, tokens]
  | cons c cs ih =>
    intro url branch
    rw [scanLine]
    by_cases hb : c = ' ' ∨ c = '\t'
    · rw [if_pos hb, tokens_blank c cs ((isBlank_iff c).2 hb)]
      have : (if url.length ≠ 0 then 1 else 1) = 1 := by split <;> rfl
      rw [this]
      exact ih url branch
    · rw [if_neg hb]
      have hb2 : isBlank c = false := by
        rw [Bool.eq_false_iff]; exact fun h => hb ((isBlank_iff c).1 h)
      obtain ⟨p, ps, e1, e2⟩ := splitOnP_other c cs hb2
      show scanLine cs 1 url (branch ++ [c]) = _
      rw [ih]
      unfold tokens
      rw [flatten_filter_nonempty, flatten_filter_nonempty, e1, e2]
      simp

theorem scanLine_started (cs : Str) :
    ∀ (url : Str), url ≠ [] →
      scanLine cs 0 url []
        = (url ++ (cs.splitOnP isBlank).headD [], ((cs.splitOnP isBlank).tail).flatten) := by
  induction cs with
  | nil => intro url _; simp [scanLine]
  | cons c cs ih =>
    intro url hu
    rw [scanLine]
    by_cases hb : c = ' ' ∨ c = '\t'
    · rw [if_pos hb, splitOnP_blank c cs ((isBlank_iff c).2 hb)]
      have : (if url.length ≠ 0 then 1 else 0) = 1 := by
        rw [if_pos (fun h => hu (List.length_eq_zero.1 h))]
      rw [this, scanLine_phase1]
      unfold tokens
      rw [flatten_filter_nonempty]
      simp
    · rw [if_neg hb]
      have hb2 : isBlank c = false := by
        rw [Bool.eq_false_iff]; exact fun h => hb ((isBlank_iff c).1 h)
      obtain ⟨p, ps, e1, e2⟩ := splitOnP_other c cs hb2
      show scanLine cs 0 (url ++ [c]) [] = _
      rw [ih (url ++ [c]) (by simp), e1, e2]
      simp

theorem scanLine_tokens (line : Str) :
    scanLine line 0 [] [] = ((tokens line).headD [], (tokens line).tail.flatten) := by
  induction line with
  | nil => simp [scanLine, tokens]
  | cons c cs ih =>
    rw [scanLine]
    by_cases hb : c = ' ' ∨ c = '\t'
    · rw [if_pos hb, tokens_blank c cs ((isBlank_iff c).2 hb)]
      exact ih
    · rw [if_neg hb]
      have hb2 : isBlank c = false := by
        rw [Bool.eq_false_iff]; exact fun h => hb ((isBlank_iff c).1 h)
      obtain ⟨p, ps, e1, e2⟩ := splitOnP_other c cs hb2
      show scanLine cs 0 ([] ++ [c]) [] = _
      rw [scanLine_started cs ([] ++ [c]) (by simp), e1]
      unfold tokens
      rw [e2, List.filter_cons_of_pos (by rfl)]
      simp [flatten_filter_nonempty]

theorem scanLine_cons_blank (x : Char) (xs : Str) (step : Nat) (url branch : Str)
    (hb : x = ' ' ∨ x = '\t') :
    scanLine (x :: xs) step url branch
      = scanLine xs (if url.length ≠ 0 then 1 else step) url branch := by
  match step with
  | 0 => rw [scanLine, if_pos hb]
  | 1 => rw [scanLine, if_pos hb]
  | n + 2 =>
    rw [scanLine]
    · rw [if_pos hb]
    · omega
    · omega

theorem scanLine_cons_other (x : Char) (xs : Str) (step : Nat) (url branch : Str)
    (hb : ¬ (x = ' ' ∨ x = '\t')) :
    scanLine (x :: xs) step url branch
      = match step with
        | 0 => scanLine xs step (url ++ [x]) branch
        | 1 => scanLine xs step url (branch ++ [x])
        | _ => scanLine xs step url branch := by
  match step with
  | 0 => rw [scanLine, if_neg hb]
  | 1 => rw [scanLine, if_neg hb]
  | n + 2 =>
    rw [scanLine]
    · rw [if_neg hb]
      rfl
    · omega
    · omega

theorem scanLine_chars (cs : Str) :
    ∀ (step : Nat) (url branch : Str) (c : Char),
      c ∈ (scanLine cs step url branch).1 ++ (scanLine cs step url branch).2 →
      c ∈ url ++ branch ∨ (c ∈ cs ∧ c ≠ ' ' ∧ c ≠ '\t') := by
  induction cs with
  | nil => intro step url branch c h; exact Or.inl h
  | cons x xs ih =>
    intro step url branch c h
    by_cases hb : x = ' ' ∨ x = '\t'
    · rw [scanLine_cons_blank x xs step url branch hb] at h
      rcases ih _ url branch c h with h1 | h1
      · exact Or.inl h1
      · exact Or.inr ⟨List.mem_cons_of_mem x h1.1, h1.2⟩
    · rw [scanLine_cons_other x xs step url branch hb] at h
      have hx : x ≠ ' ' ∧ x ≠ '\t' := ⟨fun e => hb (Or.inl e), fun e => hb (Or.inr e)⟩
      have lift : ∀ (st : Nat) (u b : Str),
          c ∈ (scanLine xs st u b).1 ++ (scanLine xs st u b).2 →
          (∀ y, y ∈ u ++ b → y ∈ url ++ branch ∨ y = x) →
          c ∈ url ++ branch ∨ (c ∈ x :: xs ∧ c ≠ ' ' ∧ c ≠ '\t') := by
        intro st u b hc hsub
        rcases ih st u b c hc with h1 | h1
        · rcases hsub c h1 with h2 | h2
          · exact Or.inl h2
          · exact Or.inr ⟨by rw [h2]; exact List.mem_cons_self x xs, by rw [h2]; exact hx⟩
        · exact Or.inr ⟨List.mem_cons_of_mem x h1.1, h1.2⟩
      match step, h with
      | 0, h =>
        exact lift _ _ _ h (by
          intro y hy
          simp only [List.mem_append, List.mem_singleton] at hy ⊢
          tauto)
      | 1, h =>
        exact lift _ _ _ h (by
          intro y hy
          simp only [List.mem_append, List.mem_singleton] at hy ⊢
          tauto)
      | n + 2, h =>
        exact lift _ _ _ h (fun y hy => Or.inl hy)

theorem tokens_other (c : Char) (cs : Str) (h : isBlank c = false) :
    ∃ p ps, tokens (c :: cs) = (c :: p) :: ps := by
  obtain ⟨p, ps, _, e2⟩ := splitOnP_other c cs h
  refine ⟨p, ps.filter (fun t => !t.isEmpty), ?_⟩
  unfold tokens
  rw [e2, List.filter_cons_of_pos (by rfl)]

theorem tokens_eq_nil_iff (line : Str) :
    tokens line = [] ↔ ∀ c ∈ line, c = ' ' ∨ c = '\t' := by
  induction line with
  | nil => simp [tokens]
  | cons c cs ih =>
    by_cases hb : isBlank c = true
    · rw [tokens_blank c cs hb, ih]
      constructor
      · intro h x hx
        rcases List.mem_cons.1 hx with e | e
        · rw [e]; exact (isBlank_iff c).1 hb
        · exact h x e
      · intro h x hx
        exact h x (List.mem_cons_of_mem c hx)
    · have hb2 : isBlank c = false := by simpa using hb
      obtain ⟨p, ps, e⟩ := tokens_other c cs hb2
      rw [e]
      constructor
      · intro h; exact absurd h (List.cons_ne_nil _ _)
      · intro h
        exact absurd ((isBlank_iff c).2 (h c (List.mem_cons_self c cs))) hb

theorem tokens_nonempty (line : Str) : ∀ t ∈ tokens line, t ≠ [] := by
  intro t ht
  unfold tokens at ht
  have := (List.mem_filter.1 ht).2
  intro e
  rw [e] at this
  exact absurd this (by decide)

theorem readDependency_scan (dep : Dependency) (file : ifstream) (ho : file.is_open = true)
    (hne : (readLine file).1 ≠ []) :
    readDependency dep file
      = (true,
          { url := (scanLine (readLine file).1 0 [] []).1,
            branch := (scanLine (readLine file).1 0 [] []).2 },
          (readLine file).2) := by
  unfold readDependency
  simp only [ho, Bool.not_true, Bool.false_eq_true, if_false]
  have : (readLine file).1.isEmpty = false := by
    cases h : (readLine file).1 with
    | nil => exact absurd h hne
    | cons a l => rfl
  simp only [this, Bool.false_eq_true, if_false]

/-- C14: on every non-empty decoded line `readDependency` succeeds and returns
the record whose source location is the first token of the line and whose ref
is the concatenation, with nothing in between, of the tokens after the first
(empty when there is none), the tokens being the maximal runs of characters
other than space and tab; neither field contains a space or a tab. -/
theorem readDependency_tokens (dep : Dependency) (file : ifstream)
    (ho : file.is_open = true) (hne : (readLine file).1 ≠ []) :
    readDependency dep file
      = (true,
          { url := (tokens (readLine file).1).headD [],
            branch := ((tokens (readLine file).1).tail).flatten },
          (readLine file).2)
    ∧ (∀ c ∈ (readDependency dep file).2.1.url, c ≠ ' ' ∧ c ≠ '\t')
    ∧ (∀ c ∈ (readDependency dep file).2.1.branch, c ≠ ' ' ∧ c ≠ '\t')
    ∧ ((tokens (readLine file).1).length ≤ 1 → (readDependency dep file).2.1.branch = [])
    ∧ tokens "  u\t r1  r2 ".toList = ["u".toList, "r1".toList, "r2".toList] := by
  have h := readDependency_scan dep file ho hne
  have hc := scanLine_chars (readLine file).1 0 [] []
  refine ⟨?_, ?_, ?_, ?_, by decide⟩
  · rw [h, scanLine_tokens]
  · intro c hcm
    rw [h] at hcm
    rcases hc c (List.mem_append_left _ hcm) with h1 | h1
    · exact absurd h1 (List.not_mem_nil c)
    · exact h1.2
  · intro c hcm
    rw [h] at hcm
    rcases hc c (List.mem_append_right _ hcm) with h1 | h1
    · exact absurd h1 (List.not_mem_nil c)
    · exact h1.2
  · intro hl
    rw [h, scanLine_tokens]
    show ((tokens (readLine file).1).tail).flatten = []
    cases ht : tokens (readLine file).1 with
    | nil => rfl
    | cons t ts =>
      rw [ht] at hl
      have : ts = [] := List.length_eq_zero.1 (by simpa using hl)
      rw [this]
      rfl

/-- C14, at the line `https://x/y   main dev`: the record is
(`https://x/y`, `maindev`). -/
theorem readDependency_tokens_witness :
    readDependency { url := [], branch := [] }
        { is_open := true, content := [], rest := "https://x/y   main dev\n".toList }
      = (true, { url := "https://x/y".toList, branch := "maindev".toList },
          { is_open := true, content := [], rest := [] }) :=
  ((readDependency_tokens { url := [], branch := [] }
    { is_open := true, content := [], rest := "https://x/y   main dev\n".toList }
    rfl (by decide)).1).trans (by decide)

/-- C17, as amended: `readDependency` succeeds on every non-empty decoded line;
spaces and tabs at the start of the line are skipped, so the source location
is empty exactly when the line consists of spaces and tabs only, and then the
ref is empty as well; on every line with no second token the ref is empty. -/
theorem readDependency_degenerate (dep : Dependency) (file : ifstream)
    (ho : file.is_open = true) (hne : (readLine file).1 ≠ []) :
    (readDependency dep file).1 = true
    ∧ ((readDependency dep file).2.1.url = []
        ↔ ∀ c ∈ (readLine file).1, c = ' ' ∨ c = '\t')
    ∧ ((readDependency dep file).2.1.url = [] → (readDependency dep file).2.1.branch = [])
    ∧ ((tokens (readLine file).1).length ≤ 1 → (readDependency dep file).2.1.branch = [])
    ∧ (∀ (c : Char) (cs : Str), (c = ' ' ∨ c = '\t') →
        scanLine (c :: cs) 0 [] [] = scanLine cs 0 [] []) := by
  have h := readDependency_scan dep file ho hne
  have hurl : (readDependency dep file).2.1.url = []
      ↔ tokens (readLine file).1 = [] := by
    rw [h, scanLine_tokens]
    show (tokens (readLine file).1).headD [] = [] ↔ _
    cases ht : tokens (readLine file).1 with
    | nil => simp
    | cons t ts =>
      have := tokens_nonempty (readLine file).1 t (by rw [ht]; exact List.mem_cons_self t ts)
      simp [this]
  have hlen : (tokens (readLine file).1).length ≤ 1 →
      (readDependency dep file).2.1.branch = [] := by
    intro hl
    rw [h, scanLine_tokens]
    show ((tokens (readLine file).1).tail).flatten = []
    cases ht : tokens (readLine file).1 with
    | nil => rfl
    | cons t ts =>
      rw [ht] at hl
      have : ts = [] := List.length_eq_zero.1 (by simpa using hl)
      rw [this]
      rfl
  refine ⟨by rw [h], hurl.trans (tokens_eq_nil_iff _), ?_, hlen, ?_⟩
  · intro hu
    apply hlen
    rw [hurl.1 hu]
    exact Nat.zero_le 1
  · intro c cs hb
    rw [scanLine_cons_blank c cs 0 [] [] hb]
    rfl

/-- C17, at the line of two spaces: the record has an empty source location
and an empty ref. -/
theorem readDependency_degenerate_witness :
    (readDependency { url := "old".toList, branch := "old".toList }
        { is_open := true, content := [], rest := "  \n".toList }).1 = true
    ∧ (readDependency { url := "old".toList, branch := "old".toList }
        { is_open := true, content := [], rest := "  \n".toList }).2.1.url = [] :=
  ⟨(readDependency_degenerate { url := "old".toList, branch := "old".toList }
      { is_open := true, content := [], rest := "  \n".toList } rfl (by decide)).1,
   (readDependency_degenerate { url := "old".toList, branch := "old".toList }
      { is_open := true, content := [], rest := "  \n".toList } rfl (by decide)).2.1.2
      (by decide)⟩

/-- C17 as stated fails: the line ` u r` starts with a space and its record has
the source location `u`, not an empty one. -/
theorem readDependency_degenerate_counterexample :
    ¬ (∀ (dep : Dependency) (file : ifstream), file.is_open = true →
        (readLine file).1 ≠ [] →
        ((readLine file).1.head? = some ' ' ∨ (readLine file).1.head? = some '\t') →
        (readDependency dep file).2.1.url = [])
    ∧ (readLine { is_open := true, content := [], rest := " u r\n".toList }).1 = " u r".toList
    ∧ (readDependency { url := [], branch := [] }
        { is_open := true, content := [], rest := " u r\n".toList }).2.1
        = { url := "u".toList, branch := "r".toList } := by
  refine ⟨?_, by decide, by decide⟩
  intro h
  have h1 := h { url := [], branch := [] }
    { is_open := true, content := [], rest := " u r\n".toList } rfl (by decide) (by decide)
  revert h1
  decide

theorem readLineLoop_chars (s : Str) :
    ∀ (comment : Bool) (data : Str) (c : Char),
      c ∈ (readLineLoop s comment data).1 →
      c ∈ data ∨ (c ∈ s ∧ c ∉ ['\r', '\n', '<', '>', '"', '|']) := by
  induction s with
  | nil => intro comment data c h; exact Or.inl h
  | cons x xs ih =>
    intro comment data c h
    have lift : ∀ (cm : Bool) (d : Str), c ∈ (readLineLoop xs cm d).1 →
        (∀ y, y ∈ d → y ∈ data ∨ (y = x ∧ x ∉ ['\r', '\n', '<', '>', '"', '|'])) →
        c ∈ data ∨ (c ∈ x :: xs ∧ c ∉ ['\r', '\n', '<', '>', '"', '|']) := by
      intro cm d hc hsub
      rcases ih cm d c hc with h1 | h1
      · rcases hsub c h1 with h2 | h2
        · exact Or.inl h2
        · exact Or.inr ⟨by rw [h2.1]; exact List.mem_cons_self x xs, by rw [h2.1]; exact h2.2⟩
      · exact Or.inr ⟨List.mem_cons_of_mem x h1.1, h1.2⟩
    rw [readLineLoop] at h
    by_cases hcr : x = '\r'
    · rw [if_pos hcr] at h
      exact lift _ _ h (fun y hy => Or.inl hy)
    · rw [if_neg hcr] at h
      by_cases hnl : x = '\n'
      · rw [if_pos hnl] at h
        by_cases hd : data.length = 0
        · rw [if_pos hd] at h
          exact lift _ _ h (fun y hy => Or.inl hy)
        · rw [if_neg hd] at h
          exact Or.inl h
      · rw [if_neg hnl] at h
        dsimp only at h
        by_cases hm : isMarker x = true
        · simp only [hm, if_true] at h
          exact lift _ _ h (fun y hy => Or.inl hy)
        · have hm2 : isMarker x = false := by simpa using hm
          simp only [hm2, Bool.false_eq_true, if_false] at h
          by_cases hcm : comment = true
          · rw [if_pos hcm] at h
            exact lift _ _ h (fun y hy => Or.inl hy)
          · rw [if_neg hcm] at h
            refine lift _ _ h ?_
            intro y hy
            rcases List.mem_append.1 hy with h1 | h1
            · exact Or.inl h1
            · refine Or.inr ⟨List.mem_singleton.1 h1, ?_⟩
              intro hx
              have hmk : x ∉ ['<', '>', '"', '|'] := fun hh => hm ((isMarker_iff x).2 hh)
              simp only [List.mem_cons, List.mem_singleton, List.not_mem_nil, or_false] at hx hmk
              tauto

theorem readDependency_chars (dep : Dependency) (file : ifstream)
    (hv : (readDependency dep file).1 = true) :
    ∀ c, c ∈ (readDependency dep file).2.1.url ++ (readDependency dep file).2.1.branch →
      c ∉ [' ', '\t', '\r', '\n', '<', '>', '"', '|'] := by
  intro c hc
  unfold readDependency at hv hc
  by_cases ho : (!file.is_open) = true
  · rw [if_pos ho] at hv
    exact absurd hv (by simp)
  · rw [if_neg ho] at hv hc
    dsimp only at hv hc
    by_cases he : (readLine file).1.isEmpty = true
    · rw [if_pos he] at hv
      exact absurd hv (by simp)
    · rw [if_neg he] at hc
      dsimp only at hc
      rcases scanLine_chars _ 0 [] [] c hc with h1 | h1
      · exact absurd h1 (List.not_mem_nil c)
      · have hl : c ∈ (readLineLoop file.rest false []).1 := by
          have := h1.1
          unfold readLine at this
          rw [if_neg ho] at this
          exact this
        rcases readLineLoop_chars file.rest false [] c hl with h2 | h2
        · exact absurd h2 (List.not_mem_nil c)
        · intro hx
          have h3 := h2.2
          have h4 := h1.2
          simp only [List.mem_cons, List.mem_singleton, List.not_mem_nil, or_false] at hx h3
          tauto

theorem readAll_chars :
    ∀ (fuel : Nat) (dep : Dependency) (file : ifstream) (acc : List Dependency),
      ∀ r ∈ readAll fuel dep file acc,
        r ∈ acc ∨ ∀ c, c ∈ r.url ++ r.branch → c ∉ [' ', '\t', '\r', '\n', '<', '>', '"', '|'] := by
  intro fuel
  induction fuel with
  | zero => intro dep file acc r hr; exact Or.inl hr
  | succ n ih =>
    intro dep file acc r hr
    rw [readAll] at hr
    by_cases hv : (readDependency dep file).1 = true
    · simp only [hv, if_true] at hr
      rcases ih _ _ _ r hr with h1 | h1
      · rcases List.mem_append.1 h1 with h2 | h2
        · exact Or.inl h2
        · rw [List.mem_singleton.1 h2]
          exact Or.inr (readDependency_chars dep file hv)
      · exact Or.inr h1
    · simp only [hv, Bool.false_eq_true, if_false] at hr
      exact Or.inl hr

/-- C20: for every file and either setting of the ignore-header switch, no
record `getDependencies` returns has a space, a tab, a carriage return, a line
feed or one of the characters `<`, `>`, `"`, `|` in its source location or in
its ref: `readLine` puts none of the last six into a decoded line and
`readDependency` copies neither space nor tab. -/
theorem getDependencies_clean (g : GlobalParameters) (fs : FileSystem) (path : Str)
    (file : ifstream) (out : List Str) :
    (∀ r ∈ (getDependenciesFrom g file out).1, ∀ c, c ∈ r.url ++ r.branch →
      c ∉ [' ', '\t', '\r', '\n', '<', '>', '"', '|'])
    ∧ (∀ r ∈ (getDependencies g fs path out).1, ∀ c, c ∈ r.url ++ r.branch →
      c ∉ [' ', '\t', '\r', '\n', '<', '>', '"', '|'])
    ∧ (∀ (s : Str) (comment : Bool), ∀ c ∈ (readLineLoop s comment []).1,
      c ∉ ['\r', '\n', '<', '>', '"', '|'])
    ∧ (∀ (line : Str), ∀ c ∈ (scanLine line 0 [] []).1 ++ (scanLine line 0 [] []).2,
      c ≠ ' ' ∧ c ≠ '\t') := by
  have key : ∀ f : ifstream, ∀ r ∈ (getDependenciesFrom g f out).1, ∀ c, c ∈ r.url ++ r.branch →
      c ∉ [' ', '\t', '\r', '\n', '<', '>', '"', '|'] := by
    intro f r hr
    unfold getDependenciesFrom at hr
    dsimp only at hr
    split at hr
    · exact absurd hr (List.not_mem_nil r)
    · rcases readAll_chars _ _ _ _ r hr with h | h
      · exact absurd h (List.not_mem_nil r)
      · exact h
  refine ⟨key file, key (openFile fs path), ?_, ?_⟩
  · intro s comment c hc
    rcases readLineLoop_chars s comment [] c hc with h | h
    · exact absurd h (List.not_mem_nil c)
    · exact h.2
  · intro line c hc
    rcases scanLine_chars line 0 [] [] c hc with h | h
    · exact absurd h (List.not_mem_nil c)
    · exact h.2

theorem readLineLoop_skip_blank (s : Str) (comment : Bool) :
    readLineLoop ('\n' :: s) comment [] = readLineLoop s comment [] := by
  rw [readLineLoop, if_neg (by decide), if_pos rfl]
  rfl

theorem readLineLoop_doubled (post : Str) (pre : Str) :
    ∀ (comment : Bool) (data : Str),
      (readLineLoop (pre ++ '\n' :: '\n' :: post) comment data).1
        = (readLineLoop (pre ++ '\n' :: post) comment data).1
      ∧ sameUpToBlankLine (readLineLoop (pre ++ '\n' :: '\n' :: post) comment data).2
          (readLineLoop (pre ++ '\n' :: post) comment data).2 := by
  induction pre with
  | nil =>
    intro comment data
    rw [List.nil_append, List.nil_append]
    by_cases hd : data.length = 0
    · have e1 : readLineLoop ('\n' :: '\n' :: post) comment data
          = readLineLoop post comment data := by
        rw [readLineLoop, if_neg (by decide), if_pos rfl, if_pos hd,
          readLineLoop, if_neg (by decide), if_pos rfl, if_pos hd]
      have e2 : readLineLoop ('\n' :: post) comment data = readLineLoop post comment data := by
        rw [readLineLoop, if_neg (by decide), if_pos rfl, if_pos hd]
      rw [e1, e2]
      exact ⟨rfl, Or.inl rfl⟩
    · have e1 : readLineLoop ('\n' :: '\n' :: post) comment data = (data, '\n' :: post) := by
        rw [readLineLoop, if_neg (by decide), if_pos rfl, if_neg hd]
      have e2 : readLineLoop ('\n' :: post) comment data = (data, post) := by
        rw [readLineLoop, if_neg (by decide), if_pos rfl, if_neg hd]
      rw [e1, e2]
      exact ⟨rfl, Or.inr (Or.inl rfl)⟩
  | cons x xs ih =>
    intro comment data
    rw [List.cons_append, List.cons_append, readLineLoop, readLineLoop]
    by_cases hcr : x = '\r'
    · rw [if_pos hcr, if_pos hcr]; exact ih _ _
    · rw [if_neg hcr, if_neg hcr]
      by_cases hnl : x = '\n'
      · rw [if_pos hnl, if_pos hnl]
        by_cases hd : data.length = 0
        · rw [if_pos hd, if_pos hd]; exact ih _ _
        · rw [if_neg hd, if_neg hd]
          exact ⟨rfl, Or.inr (Or.inr ⟨xs, post, rfl, rfl⟩)⟩
      · rw [if_neg hnl, if_neg hnl]
        dsimp only
        split <;> (try split) <;> exact ih _ _

theorem readLineLoop_sameUpToBlankLine (s s2 : Str) (h : sameUpToBlankLine s s2)
    (comment : Bool) :
    (readLineLoop s comment []).1 = (readLineLoop s2 comment []).1
    ∧ sameUpToBlankLine (readLineLoop s comment []).2 (readLineLoop s2 comment []).2 := by
  rcases h with h | h | ⟨pre, post, h1, h2⟩
  · rw [h]; exact ⟨rfl, Or.inl rfl⟩
  · rw [h, readLineLoop_skip_blank]; exact ⟨rfl, Or.inl rfl⟩
  · rw [h1, h2]; exact readLineLoop_doubled post pre comment []

theorem readDependency_sameUpToBlankLine (dep : Dependency) (f f2 : ifstream)
    (ho : f.is_open = f2.is_open) (hr : sameUpToBlankLine f.rest f2.rest) :
    (readDependency dep f).1 = (readDependency dep f2).1
    ∧ (readDependency dep f).2.1 = (readDependency dep f2).2.1
    ∧ (readDependency dep f).2.2.is_open = (readDependency dep f2).2.2.is_open
    ∧ sameUpToBlankLine (readDependency dep f).2.2.rest (readDependency dep f2).2.2.rest := by
  have hl := readLineLoop_sameUpToBlankLine f.rest f2.rest hr false
  unfold readDependency readLine
  rw [ho]
  cases hopen : f2.is_open with
  | false =>
    simp only [Bool.not_false, if_true]
    exact ⟨trivial, trivial, by rw [ho, hopen], hr⟩
  | true =>
    simp only [Bool.not_true, Bool.false_eq_true, if_false]
    rw [hl.1]
    split
    · exact ⟨rfl, rfl, rfl, hl.2⟩
    · exact ⟨rfl, rfl, rfl, hl.2⟩

theorem readAll_sameUpToBlankLine :
    ∀ (fuel fuel2 : Nat) (dep : Dependency) (f f2 : ifstream) (acc : List Dependency),
      f.is_open = f2.is_open → sameUpToBlankLine f.rest f2.rest →
      f.rest.length < fuel → f2.rest.length < fuel2 →
      readAll fuel dep f acc = readAll fuel2 dep f2 acc := by
  intro fuel
  induction fuel with
  | zero => intro fuel2 dep f f2 acc _ _ h _; exact absurd h (Nat.not_lt_zero _)
  | succ n ih =>
    intro fuel2 dep f f2 acc ho hr h1 h2
    cases fuel2 with
    | zero => exact absurd h2 (Nat.not_lt_zero _)
    | succ k =>
      obtain ⟨e1, e2, e3, e4⟩ := readDependency_sameUpToBlankLine dep f f2 ho hr
      rw [readAll, readAll]
      rw [← e1, ← e2]
      cases hv : (readDependency dep f).1 with
      | false => simp
      | true =>
        simp only [if_true]
        have c1 := readDependency_consumes dep f hv
        have c2 := readDependency_consumes dep f2 (e1.symm.trans hv)
        exact ih k _ _ _ _ e3 e4 (by omega) (by omega)

theorem getDependenciesFrom_sameUpToBlankLine (g : GlobalParameters) (c c2 : Str)
    (out : List Str) (h : sameUpToBlankLine c c2) :
    getDependenciesFrom g { is_open := true, content := c, rest := c } out
      = getDependenciesFrom g { is_open := true, content := c2, rest := c2 } out := by
  have hl := readLineLoop_sameUpToBlankLine c c2 h false
  have hall := readAll_sameUpToBlankLine ((readLineLoop c false []).2.length + 1)
    ((readLineLoop c2 false []).2.length + 1) { url := [], branch := [] }
    { is_open := true, content := c, rest := (readLineLoop c false []).2 }
    { is_open := true, content := c2, rest := (readLineLoop c2 false []).2 } [] rfl hl.2
    (Nat.lt_succ_self _) (Nat.lt_succ_self _)
  unfold getDependenciesFrom validateDependency readLine
  simp only [Bool.not_true, Bool.false_eq_true, if_false]
  rw [hl.1]
  by_cases hv : (!decide ((readLineLoop c2 false []).1 = headerSentinel)
      && g.ignoreDependencyFileHeader) = true
  · simp only [hv, if_true, Bool.not_true, Bool.false_eq_true, if_false]
    rw [hall]
  · simp only [hv, Bool.false_eq_true, if_false]
    split
    · rfl
    · rw [hall]

theorem readLineLoop_empty_at_end (s : Str) :
    ∀ (comment : Bool) (data : Str),
      (readLineLoop s comment data).2 ≠ [] → (readLineLoop s comment data).1 ≠ [] := by
  induction s with
  | nil => intro comment data h; exact absurd rfl h
  | cons x xs ih =>
    intro comment data
    rw [readLineLoop]
    by_cases hcr : x = '\r'
    · rw [if_pos hcr]; exact ih _ _
    · rw [if_neg hcr]
      by_cases hnl : x = '\n'
      · rw [if_pos hnl]
        by_cases hd : data.length = 0
        · rw [if_pos hd]; exact ih _ _
        · rw [if_neg hd]
          intro _ e
          exact hd (by rw [show data = [] from e]; rfl)
      · rw [if_neg hnl]
        dsimp only
        split <;> (try split) <;> exact ih _ _

/-- C15, as amended: record reading does not stop at a blank line.  A line feed
met while no content has been accumulated is skipped, so a file with an empty
line (two consecutive line feeds) gives the same result of `getDependencies`
as the file without it, whatever precedes and follows; and a read returns an
empty decoded line only when it has consumed all the remaining input. -/
theorem blank_lines_skipped (g : GlobalParameters) (pre post : Str) (out : List Str) :
    getDependenciesFrom g
        { is_open := true, content := pre ++ '\n' :: '\n' :: post,
          rest := pre ++ '\n' :: '\n' :: post } out
      = getDependenciesFrom g
        { is_open := true, content := pre ++ '\n' :: post, rest := pre ++ '\n' :: post } out
    ∧ (∀ (s : Str) (comment : Bool),
        readLineLoop ('\n' :: s) comment [] = readLineLoop s comment [])
    ∧ (∀ s : Str, (readLineLoop s false []).1 = [] → (readLineLoop s false []).2 = [])
    ∧ (getDependenciesFrom defaultFlags
        { is_open := true, content := "#DEPENDENCIES\nu1 r1\n\nu2 r2\n".toList,
          rest := "#DEPENDENCIES\nu1 r1\n\nu2 r2\n".toList } []).1
        = [{ url := "u1".toList, branch := "r1".toList },
           { url := "u2".toList, branch := "r2".toList }] := by
  refine ⟨getDependenciesFrom_sameUpToBlankLine g _ _ out (Or.inr (Or.inr ⟨pre, post, rfl, rfl⟩)),
    readLineLoop_skip_blank, ?_, by decide⟩
  intro s h
  by_contra hne
  exact readLineLoop_empty_at_end s false [] hne h

/-- C15 as stated fails: in the file with the header, the line `u1 r1`, an
empty line and the line `u2 r2`, the read at the empty line returns `u2 r2`,
and `getDependencies` returns both records, not only the first. -/
theorem blank_line_counterexample :
    (getDependenciesFrom defaultFlags
        { is_open := true, content := "#DEPENDENCIES\nu1 r1\n\nu2 r2\n".toList,
          rest := "#DEPENDENCIES\nu1 r1\n\nu2 r2\n".toList } []).1
      ≠ [{ url := "u1".toList, branch := "r1".toList }]
    ∧ { url := "u2".toList, branch := "r2".toList }
        ∈ (getDependenciesFrom defaultFlags
            { is_open := true, content := "#DEPENDENCIES\nu1 r1\n\nu2 r2\n".toList,
              rest := "#DEPENDENCIES\nu1 r1\n\nu2 r2\n".toList } []).1
    ∧ readLine { is_open := true, content := [], rest := "\nu2 r2\n".toList }
        = ("u2 r2".toList, { is_open := true, content := [], rest := [] }) := by
  refine ⟨by decide, by decide, by decide⟩

theorem readLineLoop_swallow (s : Str) : readLineLoop s true [] = ([], []) := by
  induction s with
  | nil => rfl
  | cons x xs ih =>
    rw [readLineLoop]
    by_cases hcr : x = '\r'
    · rw [if_pos hcr]; exact ih
    · rw [if_neg hcr]
      by_cases hnl : x = '\n'
      · rw [if_pos hnl]; exact ih
      · rw [if_neg hnl]
        simp only [ite_self, if_true]
        exact ih

/-- C16, as amended: when a marker is the very first content of a line,
`readLine` discards the remainder of that physical line through its line feed
and does not end the read there: on the input `m t` line feed `rest`, with `m`
a marker and no line feed in `t`, the read goes on in `rest` with no content
accumulated, so that it consumes at least `m t` and the line feed and returns
nothing at that line feed. -/
theorem marker_line_discarded (m : Char) (t rest : Str)
    (hm : m ∈ ['<', '>', '"', '|']) (ht : '\n' ∉ t) :
    (∃ comment : Bool,
      readLineLoop (m :: (t ++ '\n' :: rest)) false [] = readLineLoop rest comment [])
    ∧ (readLineLoop (m :: (t ++ '\n' :: rest)) false []).2.length ≤ rest.length := by
  have h : readLineLoop (m :: (t ++ '\n' :: rest)) false [] = readLineLoop rest true [] := by
    rw [readLineLoop_marker m hm, readLineLoop_comment t ht, readLineLoop_skip_blank]
  refine ⟨⟨true, h⟩, ?_⟩
  rw [h]
  exact readLineLoop_rest_length rest true []

/-- C16, at the input `<note` followed by the line `u r`: the read does not
stop after the first line. -/
theorem marker_line_discarded_witness :
    (readLineLoop "<note\nu r\n".toList false []).2.length ≤ "u r\n".toList.length :=
  (marker_line_discarded '<' "note".toList "u r\n".toList (by decide) (by decide)).2

/-- C16 as stated fails: after a marker that is the first content of a line the
comment state outlives the line feed, so the read consumes the whole remaining
input and returns the empty line at its end; on `<note` followed by the line
`u r` nothing is left for the following read, and a declaration file with such
a line after its header yields no record. -/
theorem marker_line_counterexample :
    ¬ (∀ (m : Char) (t rest : Str), m ∈ ['<', '>', '"', '|'] → '\n' ∉ t →
        readLineLoop (m :: (t ++ '\n' :: rest)) false [] = ([], rest))
    ∧ readLine { is_open := true, content := [], rest := "<note\nu r\n".toList }
        = ([], { is_open := true, content := [], rest := [] })
    ∧ (readLine { is_open := true, content := [], rest := "u r\n".toList }).1 = "u r".toList
    ∧ (getDependenciesFrom defaultFlags
        { is_open := true, content := "#DEPENDENCIES\n<note\nu r\n".toList,
          rest := "#DEPENDENCIES\n<note\nu r\n".toList } []).1 = []
    ∧ (∀ (m : Char) (t rest : Str), m ∈ ['<', '>', '"', '|'] → '\n' ∉ t →
        readLineLoop (m :: (t ++ '\n' :: rest)) false [] = ([], [])) := by
  refine ⟨?_, by decide, by decide, by decide, ?_⟩
  · intro h
    have h1 := h '<' "note".toList "u r\n".toList (by decide) (by decide)
    revert h1
    decide
  · intro m t rest hm ht
    rw [readLineLoop_marker m hm, readLineLoop_comment t ht, readLineLoop_skip_blank,
      readLineLoop_swallow]

theorem exists_last_split (c : Char) (s : Str) (h : c ∈ s) :
    ∃ pre seg, s = pre ++ c :: seg ∧ c ∉ seg := by
  induction s with
  | nil => exact absurd h (List.not_mem_nil c)
  | cons x xs ih =>
    by_cases hx : c ∈ xs
    · obtain ⟨pre, seg, e, hs⟩ := ih hx
      exact ⟨x :: pre, seg, by rw [e]; rfl, hs⟩
    · have : x = c := by
        rcases List.mem_cons.1 h with e | e
        · exact e.symm
        · exact absurd e hx
      exact ⟨[], xs, by rw [this]; rfl, hx⟩

theorem afterLastSlash_no_slash (s : Str) : '/' ∉ afterLastSlash s := by
  by_cases h : '/' ∈ s
  · obtain ⟨pre, seg, e, hs⟩ := exists_last_split '/' s h
    rw [e, afterLastSlash_append pre seg hs]
    exact hs
  · rw [afterLastSlash_absent s h]
    exact h

theorem getLibraryName_shape (dep : Dependency) (n : Str) (h : getLibraryName dep = some n) :
    ∃ seg, n = seg ++ '-' :: dep.branch ∧ '/' ∉ seg := by
  unfold getLibraryName at h
  dsimp only at h
  split at h
  · exact absurd h (by simp)
  · rename_i last _
    refine ⟨afterLastSlash
      (if last ∈ allowedChars then stripFrom (stripFrom dep.url '#') '?'
        else List.dropLast (stripFrom (stripFrom dep.url '#') '?')),
      (Option.some.inj h).symm.trans ?_, afterLastSlash_no_slash _⟩
    rw [List.append_assoc]
    rfl

/-- C12, as amended: every library name `getLibraryName` returns is a segment
without `/`, taken from the source location, followed by `-` and the ref
unchanged; so the name contains a `/` exactly when the ref does, and for a ref
without `/` it is a single path component. -/
theorem getLibraryName_component (dep : Dependency) (n : Str)
    (h : getLibraryName dep = some n) :
    (∃ seg, n = seg ++ '-' :: dep.branch ∧ '/' ∉ seg)
    ∧ ('/' ∈ n ↔ '/' ∈ dep.branch)
    ∧ ('/' ∉ dep.branch → '/' ∉ n) := by
  obtain ⟨seg, e, hs⟩ := getLibraryName_shape dep n h
  have hiff : '/' ∈ n ↔ '/' ∈ dep.branch := by
    rw [e]
    constructor
    · intro hm
      rcases List.mem_append.1 hm with h1 | h1
      · exact absurd h1 hs
      · rcases List.mem_cons.1 h1 with h2 | h2
        · exact absurd h2 (by decide)
        · exact h2
    · intro hm
      exact List.mem_append_right _ (List.mem_cons_of_mem _ hm)
  exact ⟨⟨seg, e, hs⟩, hiff, fun hb hn => hb (hiff.1 hn)⟩

/-- C12, at the record (`https://x/y`, `main`): the name `y-main` has no `/`. -/
theorem getLibraryName_component_witness :
    getLibraryName { url := "https://x/y".toList, branch := "main".toList }
      = some "y-main".toList
    ∧ '/' ∉ "y-main".toList :=
  ⟨by decide,
   (getLibraryName_component { url := "https://x/y".toList, branch := "main".toList }
    "y-main".toList (by decide)).2.2 (by decide)⟩

/-- C12 as stated fails: the line `https://x/y feature/z` parses to a record
whose library name `y-feature/z` contains a `/`. -/
theorem getLibraryName_component_counterexample :
    (readDependency { url := [], branch := [] }
        { is_open := true, content := [], rest := "https://x/y feature/z\n".toList }).1 = true
    ∧ (readDependency { url := [], branch := [] }
        { is_open := true, content := [], rest := "https://x/y feature/z\n".toList }).2.1
        = { url := "https://x/y".toList, branch := "feature/z".toList }
    ∧ getLibraryName { url := "https://x/y".toList, branch := "feature/z".toList }
        = some "y-feature/z".toList
    ∧ '/' ∈ "y-feature/z".toList
    ∧ ¬ (∀ (dep : Dependency) (file : ifstream) (n : Str),
        (readDependency dep file).1 = true →
        getLibraryName (readDependency dep file).2.1 = some n → '/' ∉ n) := by
  refine ⟨by decide, by decide, by decide, by decide, ?_⟩
  intro h
  exact h { url := [], branch := [] }
    { is_open := true, content := [], rest := "https://x/y feature/z\n".toList }
    "y-feature/z".toList (by decide) (by decide) (by decide)

/-- C18: the line `#frag main` is a non-empty decoded line, `readDependency`
returns the record (`#frag`, `main`) for it, and in `getLibraryName` the
fragment strip leaves the empty string, on which `url.back()` is called; the
same happens for the line of one space, whose record has an empty source
location. -/
theorem getLibraryName_undefined_on_parsed :
    readDependency { url := [], branch := [] }
        { is_open := true, content := [], rest := "#frag main\n".toList }
      = (true, { url := "#frag".toList, branch := "main".toList },
          { is_open := true, content := [], rest := [] })
    ∧ stripFrom (stripFrom "#frag".toList '#') '?' = []
    ∧ getLibraryName { url := "#frag".toList, branch := "main".toList } = none
    ∧ (readDependency { url := [], branch := [] }
        { is_open := true, content := [], rest := " \n".toList }).2.1
        = { url := [], branch := [] }
    ∧ getLibraryName { url := [], branch := [] } = none
    ∧ (getDependenciesFrom defaultFlags
        { is_open := true, content := "#DEPENDENCIES\n#frag main\n".toList,
          rest := "#DEPENDENCIES\n#frag main\n".toList } []).1
        = [{ url := "#frag".toList, branch := "main".toList }]
    ∧ (∀ dep : Dependency,
        getLibraryName dep = none ↔ stripFrom (stripFrom dep.url '#') '?' = []) := by
  refine ⟨by decide, by decide, by decide, by decide, by decide, by decide, ?_⟩
  intro dep
  unfold getLibraryName
  dsimp only
  cases hs : stripFrom (stripFrom dep.url '#') '?' with
  | nil => simp
  | cons a l =>
    have : (a :: l).getLast? ≠ none := by
      rw [List.getLast?_eq_getLast _ (List.cons_ne_nil a l)]
      exact fun h => Option.noConfusion h
    cases hl : (a :: l).getLast? with
    | none => exact absurd hl this
    | some last => simp

theorem commandLine_three (a b c : Str) :
    commandLine "git".toList [a, b, c]
      = "git".toList ++ (" ".toList ++ a) ++ (" ".toList ++ b) ++ (" ".toList ++ c) := rfl

theorem presentRequests_cases (g : GlobalParameters) (recursing : Bool) (libpath : Str) :
    (recursing = false ∧ g.ignorePull = false ∧ g.cleanRepo = true
        ∧ presentRequests g recursing libpath = [resetCommand libpath, pullCommand libpath])
    ∨ (recursing = false ∧ g.ignorePull = false ∧ g.cleanRepo = false
        ∧ presentRequests g recursing libpath = [pullCommand libpath])
    ∨ ((recursing = true ∨ g.ignorePull = true) ∧ presentRequests g recursing libpath = []) := by
  unfold presentRequests
  cases recursing <;> cases hi : g.ignorePull <;> cases hc : g.cleanRepo <;> simp

theorem getLast?_cons_of_ne_nil (x : Char) (l : Str) (h : l ≠ []) :
    (x :: l).getLast? = l.getLast? := by
  cases l with
  | nil => exact absurd rfl h
  | cons a t => exact List.getLast?_cons_cons

theorem getLast?_after_slash (pre seg : Str) (last : Char) (h : seg.getLast? = some last) :
    (pre ++ '/' :: seg).getLast? = some last := by
  have hne : seg ≠ [] := by
    intro e
    rw [e] at h
    exact absurd h (by simp)
  induction pre with
  | nil => rw [List.nil_append, getLast?_cons_of_ne_nil '/' seg hne]; exact h
  | cons x xs ih =>
    rw [List.cons_append, getLast?_cons_of_ne_nil x _ (by simp)]
    exact ih

theorem getLibraryName_same_segment (pre seg ref : Str) (last : Char)
    (hp1 : '#' ∉ pre) (hp2 : '?' ∉ pre) (hs1 : '#' ∉ seg) (hs2 : '?' ∉ seg)
    (hs3 : '/' ∉ seg) (hl : seg.getLast? = some last) (ha : last ∈ allowedChars) :
    getLibraryName { url := pre ++ '/' :: seg, branch := ref }
      = some (seg ++ "-".toList ++ ref) := by
  have hf : '#' ∉ pre ++ '/' :: seg := by
    intro h
    rcases List.mem_append.1 h with h1 | h1
    · exact hp1 h1
    · rcases List.mem_cons.1 h1 with h2 | h2
      · exact absurd h2 (by decide)
      · exact hs1 h2
  have hq : '?' ∉ pre ++ '/' :: seg := by
    intro h
    rcases List.mem_append.1 h with h1 | h1
    · exact hp2 h1
    · rcases List.mem_cons.1 h1 with h2 | h2
      · exact absurd h2 (by decide)
      · exact hs2 h2
  rw [getLibraryName_clean _ ref last hf hq (getLast?_after_slash pre seg last hl) ha,
    afterLastSlash_append pre seg hs3]

/-- C19: `getLibraryName` is not injective on a dependency set.  Two source
locations that differ only before their last `/` give, with the same ref, the
same library name; the records (`https://x/y`, `main`) and (`https://z/y`,
`main`) are unequal, both stay in the merged set, and both have the name
`y-main`.  A record whose library path is a directory gets no clone request,
so in the run on the project that declares these two the first is cloned and
the second never is. -/
theorem getLibraryName_not_injective :
    twinA ≠ twinB
    ∧ getLibraryName twinA = some "y-main".toList
    ∧ getLibraryName twinB = some "y-main".toList
    ∧ mergeDependencies [] [twinA, twinB] = [twinA, twinB]
    ∧ recordsOf defaultFlags "/lib".toList "dependency.txt".toList twinFs = [twinA, twinB]
    ∧ (∃ w1 : World,
        updateDependencies defaultFlags twinShell "/lib".toList "dependency.txt".toList 2
          (freshWorld twinFs) = .ok (false, w1, 2)
        ∧ w1.calls = [versionCommand, cloneCommand twinA "/lib/y-main".toList,
            pullCommand "/lib/y-main".toList]
        ∧ cloneCommand twinB "/lib/y-main".toList ∉ w1.calls)
    ∧ (∀ (pre1 pre2 seg ref : Str) (last : Char),
        '#' ∉ pre1 → '?' ∉ pre1 → '#' ∉ pre2 → '?' ∉ pre2 →
        '#' ∉ seg → '?' ∉ seg → '/' ∉ seg → seg.getLast? = some last → last ∈ allowedChars →
        getLibraryName { url := pre1 ++ '/' :: seg, branch := ref }
          = getLibraryName { url := pre2 ++ '/' :: seg, branch := ref }
        ∧ (pre1 ≠ pre2 →
          ({ url := pre1 ++ '/' :: seg, branch := ref } : Dependency)
            ≠ { url := pre2 ++ '/' :: seg, branch := ref }))
    ∧ (∀ (g : GlobalParameters) (sh : Shell) (recursing : Bool) (dir : Str)
        (r : Dependency) (deps : List Dependency) (w : World) (nl : Bool) (n : Str),
        getLibraryName r = some n → w.fs.is_directory (libraryPath dir n) = true →
        ∃ (w1 : World) (added : List Str),
          syncRecords g sh recursing dir (r :: deps) w nl
            = syncRecords g sh recursing dir deps w1 nl
          ∧ w1.calls = w.calls ++ added
          ∧ ∀ c ∈ added, ∀ d p, c ≠ cloneCommand d p) := by
  refine ⟨by decide, by decide, by decide, by decide, by decide, ⟨_, rfl, by decide, by decide⟩,
    ?_, ?_⟩
  · intro pre1 pre2 seg ref last h1 h2 h3 h4 h5 h6 h7 h8 h9
    refine ⟨?_, ?_⟩
    · rw [getLibraryName_same_segment pre1 seg ref last h1 h2 h5 h6 h7 h8 h9,
        getLibraryName_same_segment pre2 seg ref last h3 h4 h5 h6 h7 h8 h9]
    · intro hne e
      have := congrArg Dependency.url e
      exact hne (List.append_cancel_right this)
  · intro g sh recursing dir r deps w nl n hn hd
    obtain ⟨w1, e, _, hc⟩ := syncRecords_present g sh recursing dir r deps w nl n hn hd
    refine ⟨w1, _, e, hc, ?_⟩
    intro c hcm d p hcl
    rcases presentRequests_cases g recursing (libraryPath dir n) with
      ⟨_, _, _, e1⟩ | ⟨_, _, _, e1⟩ | ⟨_, e1⟩
    · rw [e1] at hcm
      rcases List.mem_cons.1 hcm with h | h
      · exact (cloneCommand_ne_pull d p _).2 (hcl.symm.trans h)
      · exact (cloneCommand_ne_pull d p _).1 (hcl.symm.trans (List.mem_singleton.1 h))
    · rw [e1] at hcm
      exact (cloneCommand_ne_pull d p _).1 (hcl.symm.trans (List.mem_singleton.1 hcm))
    · rw [e1] at hcm
      exact absurd hcm (List.not_mem_nil c)

end DependencyTracker
